import Mathlib

/-!
# textnote: the archiver (`pkg/archive`) and the `archive` command (`cmd/archive`)

A shallow embedding of `Archiver.Add`, `Archiver.Write`, `parseFileName` and the
command's `run`, followed by the properties of the archiving engine.

Conventions of the embedding.

* Go strings are Lean strings; the two standard-library scanners used by
  `parseFileName` (`filepath.Ext`, `strings.TrimSuffix`) work on the list of
  characters. They only ever compare against `.` and the path separators, which
  are single-byte, so scanning characters and scanning bytes agree.
* A Go `error` is `Option Error`, `none` being `nil`.
* Pointer receivers that are mutated in place are modelled by returning the new
  value next to the error.
* The collaborators behind interfaces or in other packages (`time`, `template`,
  the `readWriter`, the operating system) are records of functions. The state the
  `readWriter` and the operating system act on is an explicit `World`.
* `map[string]*MonthArchiveTemplate` is a function `String → Option _`; the order
  in which `range` visits the map is an explicit argument.
-/

namespace Textnote

/-! ## Standard library fragments -/

/-- The message carried by a Go error value. -/
abbrev Error := String

/-- Model of errors.Wrapf from pkg/errors: nil stays nil, otherwise the message is put in front of the cause. -/
def Wrapf (err : Option Error) (msg : String) : Option Error :=
  err.map (fun cause => msg ++ ": " ++ cause)

/-- Model of os.IsPathSeparator: the slash, and on Windows also the backslash. -/
def IsPathSeparator (windows : Bool) (c : Char) : Bool :=
  c == '/' || (windows && c == Char.ofNat 92)

/-- Loop of filepath.Ext, walking the path from its last character towards the first.
The first argument is what is still to be visited (reversed path), the second is
the part of the path already passed, in path order. -/
def extScan (windows : Bool) : List Char → List Char → List Char
  | [], _ => []
  | c :: before, after =>
    if IsPathSeparator windows c then []
    else if c == '.' then c :: after
    else extScan windows before (c :: after)

/-- Model of filepath.Ext: the suffix beginning at the final dot of the final path element, empty if there is no dot. -/
def Ext (windows : Bool) (path : List Char) : List Char :=
  extScan windows path.reverse []

/-- Model of strings.HasSuffix. -/
def HasSuffix (s suffix : List Char) : Bool :=
  decide (suffix.length ≤ s.length) && (s.drop (s.length - suffix.length) == suffix)

/-- Model of strings.TrimSuffix. -/
def TrimSuffix (s suffix : List Char) : List Char :=
  if HasSuffix s suffix then s.take (s.length - suffix.length) else s

/-- Go `int` arithmetic on a 64-bit platform: results wrap around modulo 2^64
into the signed range. -/
def wrapInt (x : Int) : Int :=
  (x + 2 ^ 63) % 2 ^ 64 - 2 ^ 63

/-- The operations of Go's `time` package that the archiver calls. `Time` stands for
`time.Time` and `F` for `float64`; a `time.Duration` is its count of nanoseconds. -/
structure TimeLib (Time F : Type) where
  /-- The call time.Parse(layout, value): a time together with an error. -/
  Parse : String → String → Time × Option Error
  /-- The call t.Format(layout). -/
  Format : Time → String → String
  /-- The call t.Sub(u), in nanoseconds. -/
  Sub : Time → Time → Int
  /-- The call d.Hours(). -/
  Hours : Int → F
  /-- Conversion float64(n) of a Go int. -/
  float64 : Int → F
  /-- Comparison `<=` on float64. -/
  le : F → F → Bool

/-! ## Configuration (`pkg/config`, fields read by the archiver) -/

/-- Fields of config.FileOpts that are read. -/
structure FileOpts where
  TimeFormat : String
  deriving DecidableEq

/-- Fields of config.ArchiveOpts that are read. -/
structure ArchiveOpts where
  AfterDays : Int
  MonthTimeFormat : String
  deriving DecidableEq

/-- Fields of config.SectionOpts that are read. -/
structure SectionOpts where
  Names : List String
  deriving DecidableEq

/-- Fields of config.Opts that are read. -/
structure Opts where
  File : FileOpts
  Archive : ArchiveOpts
  Section : SectionOpts
  deriving DecidableEq

/-! ## Collaborators -/

/-- The operations of `pkg/template` that the archiver and the command call.
`Tmpl` is the state behind a `*template.Template`, `MTmpl` the state behind a
`*template.MonthArchiveTemplate`. Methods with a pointer receiver return the
receiver after the call. -/
structure TemplateLib (Time Tmpl MTmpl : Type) where
  NewTemplate : Opts → Time → Tmpl
  NewMonthArchiveTemplate : Opts → Time → MTmpl
  /-- The call archive.ArchiveSectionContents(t, section). -/
  ArchiveSectionContents : MTmpl → Tmpl → String → MTmpl × Option Error
  /-- The call t.Merge(existing). -/
  Merge : MTmpl → MTmpl → MTmpl × Option Error
  GetDate : MTmpl → Time
  GetFilePath : MTmpl → String
  /-- The call template.IsTemplateFile(name, opts.File). -/
  IsTemplateFile : String → FileOpts → Bool

/-- The `readWriter` interface of `pkg/archive`. `Read` is called both with a
`*template.Template` (in `Add`) and with a `*template.MonthArchiveTemplate` (in
`Write`); the two uses are the fields `Read` and `ReadArchive`. Every method acts
on the collaborator's own state `World`. -/
structure readWriter (World Tmpl MTmpl : Type) where
  Read : World → Tmpl → World × Tmpl × Option Error
  ReadArchive : World → MTmpl → World × MTmpl × Option Error
  Overwrite : World → MTmpl → World × Option Error
  Exists : World → MTmpl → Bool

/-- The struct Archiver of `pkg/archive`. -/
structure Archiver (Time Tmpl MTmpl World : Type) where
  opts : Opts
  rw : readWriter World Tmpl MTmpl
  /-- Timestamp for calculating if a file is old enough to be archived. -/
  date : Time
  /-- Archive templates by month, keyed by formatted month timestamp. -/
  Months : String → Option MTmpl

section Engine

variable {Time F Tmpl MTmpl World : Type}

/-- The constructor NewArchiver: the given options, collaborator and date, and an empty map. -/
def NewArchiver (opts : Opts) (rw : readWriter World Tmpl MTmpl) (date : Time) :
    Archiver Time Tmpl MTmpl World :=
  { opts := opts, rw := rw, date := date, Months := fun _ => none }

/-- The function parseFileName of `pkg/archive`. -/
def parseFileName (tl : TimeLib Time F) (windows : Bool) (fileName : String) (format : String) :
    Time × Option Error :=
  let name := String.mk (TrimSuffix fileName.data (Ext windows fileName.data))
  tl.Parse format name

/-- The guard of `Add`: `a.date.Sub(fileDate).Hours() <= float64(a.opts.Archive.AfterDays*24)`. -/
def isRecent (tl : TimeLib Time F) (date : Time) (afterDays : Int) (fileDate : Time) : Bool :=
  tl.le (tl.Hours (tl.Sub date fileDate)) (tl.float64 (wrapInt (afterDays * 24)))

/-- The loop of `Add` over `a.opts.Section.Names`: the archive after the loop, and
the error of the first failing call, at which the loop is left. -/
def archiveSections (tp : TemplateLib Time Tmpl MTmpl) (t : Tmpl) :
    List String → MTmpl → MTmpl × Option Error
  | [], archive => (archive, none)
  | sec :: rest, archive =>
    match tp.ArchiveSectionContents archive t sec with
    | (archive1, some err) => (archive1, some err)
    | (archive1, none) => archiveSections tp t rest archive1

/-- The tail of `Add` once the bucket `archive` stored under `monthKey` in `months`
is at hand: the loop over the section names and the return. The bucket is a
pointer, so what the loop does to it is visible in the map, also when the loop is
left with an error. -/
def addContents (tp : TemplateLib Time Tmpl MTmpl) (a : Archiver Time Tmpl MTmpl World)
    (w : World) (fileName : String) (t : Tmpl) (monthKey : String)
    (months : String → Option MTmpl) (archive : MTmpl) :
    Option Error × Archiver Time Tmpl MTmpl World × World :=
  match archiveSections tp t a.opts.Section.Names archive with
  | (archive1, some err) =>
    (Wrapf (some err) ("cannot add contents from [" ++ fileName ++ "] to archive"),
      { a with Months := Function.update months monthKey (some archive1) }, w)
  | (archive1, none) =>
    (none, { a with Months := Function.update months monthKey (some archive1) }, w)

/-- The method Archiver.Add. Returns the error, the archiver after the call and the
state of the collaborator after the call. -/
def Add (tl : TimeLib Time F) (tp : TemplateLib Time Tmpl MTmpl) (windows : Bool)
    (a : Archiver Time Tmpl MTmpl World) (w : World) (fileName : String) :
    Option Error × Archiver Time Tmpl MTmpl World × World :=
  -- on `err != nil` the result of errors.Wrapf is dropped and execution goes on
  let fileDate := (parseFileName tl windows fileName a.opts.File.TimeFormat).1
  -- recent files are not archived
  if isRecent tl a.date a.opts.Archive.AfterDays fileDate then
    (none, a, w)
  else
    let t := tp.NewTemplate a.opts fileDate
    match a.rw.Read w t with
    | (w1, _, some err) =>
      (Wrapf (some err) ("cannot add unreadable file [" ++ fileName ++ "] to archive"), a, w1)
    | (w1, t1, none) =>
      let monthKey := tl.Format fileDate a.opts.Archive.MonthTimeFormat
      match a.Months monthKey with
      | some archive => addContents tp a w1 fileName t1 monthKey a.Months archive
      | none =>
        let fresh := tp.NewMonthArchiveTemplate a.opts fileDate
        addContents tp a w1 fileName t1 monthKey
          (Function.update a.Months monthKey (some fresh)) fresh

/-- The body of the loop of `Write` for one bucket `t`: the error, the bucket after
the step (`Merge` mutates it) and the state of the collaborator. -/
def writeBucket (tp : TemplateLib Time Tmpl MTmpl) (rw : readWriter World Tmpl MTmpl)
    (opts : Opts) (t : MTmpl) (w : World) : Option Error × MTmpl × World :=
  if rw.Exists w t then
    let existing := tp.NewMonthArchiveTemplate opts (tp.GetDate t)
    match rw.ReadArchive w existing with
    | (w1, existing1, some err) =>
      (Wrapf (some err)
        ("unable to open existing archive file [" ++ tp.GetFilePath existing1 ++ "]"), t, w1)
    | (w1, existing1, none) =>
      match tp.Merge t existing1 with
      | (t1, some err) =>
        (Wrapf (some err)
          ("unable to from merge existing archive file [" ++ tp.GetFilePath existing1 ++ "]"),
          t1, w1)
      | (t1, none) =>
        match rw.Overwrite w1 t1 with
        | (w2, some err) =>
          (Wrapf (some err) ("failed to write archive file [" ++ tp.GetFilePath t1 ++ "]"), t1, w2)
        | (w2, none) => (none, t1, w2)
  else
    match rw.Overwrite w t with
    | (w2, some err) =>
      (Wrapf (some err) ("failed to write archive file [" ++ tp.GetFilePath t ++ "]"), t, w2)
    | (w2, none) => (none, t, w2)

/-- The method Archiver.Write. The last argument is the order in which
`range a.Months` visits the keys; a key that is not in the map is not visited. -/
def Write (tp : TemplateLib Time Tmpl MTmpl) :
    Archiver Time Tmpl MTmpl World → World → List String →
      Option Error × Archiver Time Tmpl MTmpl World × World
  | a, w, [] => (none, a, w)
  | a, w, k :: rest =>
    match a.Months k with
    | none => Write tp a w rest
    | some t =>
      match writeBucket tp a.rw a.opts t w with
      | (some err, t1, w1) =>
        (some err, { a with Months := Function.update a.Months k (some t1) }, w1)
      | (none, t1, w1) =>
        Write tp { a with Months := Function.update a.Months k (some t1) } w1 rest

/-- A visiting order of `range m`: every key of the map, each once. -/
def RangeOrder {β : Type} (m : String → Option β) (order : List String) : Prop :=
  order.Nodup ∧ ∀ k, k ∈ order ↔ (m k).isSome = true

/-! ## Names for the values `Add` computes on the way -/

/-- The date `Add` works with: the time returned by `parseFileName`, whether or
not it came with an error. -/
def fileDateOf (tl : TimeLib Time F) (windows : Bool) (a : Archiver Time Tmpl MTmpl World)
    (fileName : String) : Time :=
  (parseFileName tl windows fileName a.opts.File.TimeFormat).1

/-- The key under which `Add` files a name: its date in the month format. -/
def monthKeyOf (tl : TimeLib Time F) (windows : Bool) (a : Archiver Time Tmpl MTmpl World)
    (fileName : String) : String :=
  tl.Format (fileDateOf tl windows a fileName) a.opts.Archive.MonthTimeFormat

/-- The bucket `Add` merges into: the one stored under the key of the name, or a
new month archive for the date of the name when the key is absent. -/
def bucketOf (tl : TimeLib Time F) (tp : TemplateLib Time Tmpl MTmpl) (windows : Bool)
    (a : Archiver Time Tmpl MTmpl World) (fileName : String) : MTmpl :=
  (a.Months (monthKeyOf tl windows a fileName)).getD
    (tp.NewMonthArchiveTemplate a.opts (fileDateOf tl windows a fileName))

/-- The call of Read that `Add` makes for a name that is old enough: on a new
template for the date of the name. -/
def readOf (tl : TimeLib Time F) (tp : TemplateLib Time Tmpl MTmpl) (windows : Bool)
    (a : Archiver Time Tmpl MTmpl World) (w : World) (fileName : String) :
    World × Tmpl × Option Error :=
  a.rw.Read w (tp.NewTemplate a.opts (fileDateOf tl windows a fileName))

/-- The section loop that `Add` runs for a name that is old enough and read
without error: over the template that was read, on the bucket of the name. -/
def mergeOf (tl : TimeLib Time F) (tp : TemplateLib Time Tmpl MTmpl) (windows : Bool)
    (a : Archiver Time Tmpl MTmpl World) (w : World) (fileName : String) :
    MTmpl × Option Error :=
  archiveSections tp (readOf tl tp windows a w fileName).2.1 a.opts.Section.Names
    (bucketOf tl tp windows a fileName)

/-- Two calls of `Add` in a row, for `first` and then for `second`. -/
def addTwo (tl : TimeLib Time F) (tp : TemplateLib Time Tmpl MTmpl) (windows : Bool)
    (a : Archiver Time Tmpl MTmpl World) (w : World) (first second : String) :
    Option Error × Archiver Time Tmpl MTmpl World × World :=
  Add tl tp windows (Add tl tp windows a w first).2.1 (Add tl tp windows a w first).2.2 second

/-- A file extension in the narrow sense: a dot followed by characters that are
neither a dot nor a path separator. -/
def isExtension (windows : Bool) (e : List Char) : Bool :=
  match e with
  | '.' :: rest => rest.all (fun c => c != '.' && !IsPathSeparator windows c)
  | _ => false

/-! ## The command (`cmd/archive`) -/

/-- What `run` reads of an os.FileInfo. -/
structure FileInfo where
  Name : String
  IsDir : Bool
  deriving DecidableEq

/-- The operating system calls of `run`, both relative to config.AppDir:
`ioutil.ReadDir(config.AppDir)` and `os.Remove(filepath.Join(config.AppDir, f))`. -/
structure OSLib (World : Type) where
  ReadDir : World → List FileInfo × Option Error
  Remove : World → String → World × Option Error

/-- The struct commandOptions of `cmd/archive`. -/
structure commandOptions where
  delete : Bool
  noWrite : Bool
  deriving DecidableEq

/-- The first loop of `run` (add template files to archiver): the archiver, the
state of the collaborators and the slice `archived` after the loop. -/
def addFiles (tl : TimeLib Time F) (tp : TemplateLib Time Tmpl MTmpl) (windows : Bool) :
    List FileInfo → Archiver Time Tmpl MTmpl World → World → List String →
      Archiver Time Tmpl MTmpl World × World × List String
  | [], a, w, archived => (a, w, archived)
  | f :: rest, a, w, archived =>
    if f.IsDir then addFiles tl tp windows rest a w archived
    else if !tp.IsTemplateFile f.Name a.opts.File then addFiles tl tp windows rest a w archived
    else
      match Add tl tp windows a w f.Name with
      | (some _, a1, w1) => addFiles tl tp windows rest a1 w1 archived
      | (none, a1, w1) => addFiles tl tp windows rest a1 w1 (archived ++ [f.Name])

/-- The last loop of `run` (delete individual archived files); a failing removal
is logged and the loop goes on. -/
def removeFiles (os : OSLib World) : List String → World → World
  | [], w => w
  | f :: rest, w => removeFiles os rest (os.Remove w f).1

/-- The function run of `cmd/archive`. `now` is the value of time.Now(),
`rw` the value of file.NewReadWriter() and `range` the order in which `Write`
visits the map it is given. -/
def run (tl : TimeLib Time F) (tp : TemplateLib Time Tmpl MTmpl) (windows : Bool)
    (os : OSLib World) (rw : readWriter World Tmpl MTmpl) (now : Time)
    (range : (String → Option MTmpl) → List String)
    (templateOpts : Opts) (cmdOpts : commandOptions) (w : World) : Option Error × World :=
  let archiver : Archiver Time Tmpl MTmpl World := NewArchiver templateOpts rw now
  match os.ReadDir w with
  | (_, some err) => (some err, w)
  | (files, none) =>
    match addFiles tl tp windows files archiver w [] with
    | (archiver1, w1, archived) =>
      if !cmdOpts.noWrite then
        match Write tp archiver1 w1 (range archiver1.Months) with
        | (some err, _, w2) => (some err, w2)
        | (none, _, w2) =>
          if !cmdOpts.delete then (none, w2) else (none, removeFiles os archived w2)
      else
        if !cmdOpts.delete then (none, w1) else (none, removeFiles os archived w1)

end Engine

/-! ## Documents, merge and storage, after the specification

`pkg/template` and `pkg/file` are used by the archiver through the operations
above only. The definitions of this section follow sections 3, 4.5 and 6 of the
specification. -/

/-- Modelled from the spec: the canonical path of a document (`pkg/template`,
GetFilePath). Daily notes and monthly archives are named apart, a monthly archive
being identified uniquely by its formatted file path. -/
inductive Path where
  | note (name : String)
  | archive (name : String)
  deriving DecidableEq

/-- Named sections, each holding ordered text content. -/
abbrev Sections := List (String × List String)

/-- Modelled from the spec: a Note Document or a Monthly Archive Document
(`pkg/template`, Template and MonthArchiveTemplate): a date, the canonical path
computed when the document is constructed, and the named sections. -/
structure Document (Time : Type) where
  date : Time
  path : Path
  sections : Sections
  deriving DecidableEq

/-- Modelled from the spec: the Content Merge Algorithm of section 4.5 for one
section (`pkg/template`). Set-like accumulation over an ordered sequence: content
already in the destination stays in front, and an item of the source is appended
unless it is already contained. -/
def mergeItems (dest src : List String) : List String :=
  src.foldl (fun acc item => if item ∈ acc then acc else acc ++ [item]) dest

/-- Replace the content of the section called `name`. -/
def setSection (sections : Sections) (name : String) (items : List String) : Sections :=
  sections.map (fun s => if s.1 = name then (s.1, items) else s)

/-- Modelled from the spec: merging a whole source document into a destination
(`pkg/template`, Merge): every section of the destination receives the content of
the section of the same name of the source; a section that the source lacks is a
structural error. -/
def mergeSections : Sections → Sections → Option Sections
  | [], _ => some []
  | (name, items) :: rest, src =>
    match src.lookup name, mergeSections rest src with
    | some srcItems, some merged => some ((name, mergeItems items srcItems) :: merged)
    | _, _ => none

/-- Modelled from the spec: document construction (`pkg/template`, NewTemplate and
NewMonthArchiveTemplate): empty sections per configured section name. -/
def emptySections (opts : Opts) : Sections :=
  opts.Section.Names.dedup.map (fun name => (name, []))

/-- Modelled from the spec: the operations of `pkg/template`, over a given `time`
library. `ext` is the file extension of the naming scheme. The specification
does not describe IsTemplateFile; here a template file is a name with that
extension. -/
def specTemplate {Time F : Type} (tl : TimeLib Time F) (ext : String) :
    TemplateLib Time (Document Time) (Document Time) where
  NewTemplate opts date :=
    { date := date
      path := Path.note (tl.Format date opts.File.TimeFormat ++ ext)
      sections := emptySections opts }
  NewMonthArchiveTemplate opts date :=
    { date := date
      path := Path.archive (tl.Format date opts.Archive.MonthTimeFormat ++ ext)
      sections := emptySections opts }
  ArchiveSectionContents archive t name :=
    match archive.sections.lookup name, t.sections.lookup name with
    | some dest, some src =>
      ({ archive with sections := setSection archive.sections name (mergeItems dest src) }, none)
    | _, _ => (archive, some ("section [" ++ name ++ "] not found"))
  Merge t src :=
    match mergeSections t.sections src.sections with
    | some merged => ({ t with sections := merged }, none)
    | none => (t, some "cannot merge: section not found")
  GetDate t := t.date
  GetFilePath t := match t.path with
    | Path.note name => name
    | Path.archive name => name
  IsTemplateFile name _ := HasSuffix name.data ext.data

/-- Modelled from the spec: what persistent storage holds at a canonical path
(`pkg/file`): nothing, content that does not parse, or the sections of a document. -/
inductive FileState where
  | absent
  | malformed
  | stored (sections : Sections)
  deriving DecidableEq

/-- Modelled from the spec: persistent storage (`pkg/file`), the file system as the
only persistence layer. -/
abbrev Disk := Path → FileState

/-- Modelled from the spec: the collaborator contract of section 6 (`pkg/file`,
the value of NewReadWriter). Read populates the sections of a document from
storage at its canonical path and fails if the path does not exist or the
content is malformed; Overwrite persists the sections at the canonical path
unconditionally; Exists is a pure existence check. -/
def specReadWriter (Time : Type) : readWriter Disk (Document Time) (Document Time) where
  Read w t :=
    match w t.path with
    | FileState.stored sections => (w, { t with sections := sections }, none)
    | FileState.malformed => (w, t, some "malformed content")
    | FileState.absent => (w, t, some "no such file")
  ReadArchive w t :=
    match w t.path with
    | FileState.stored sections => (w, { t with sections := sections }, none)
    | FileState.malformed => (w, t, some "malformed content")
    | FileState.absent => (w, t, some "no such file")
  Overwrite w t := (Function.update w t.path (FileState.stored t.sections), none)
  Exists w t := decide (w t.path ≠ FileState.absent)

/-- The operating system over `Disk`, for a directory whose listing is `listing`:
removing a file empties the path of the note of that name. -/
def diskOS (listing : List FileInfo) : OSLib Disk where
  ReadDir _ := (listing, none)
  Remove w f := (Function.update w (Path.note f) FileState.absent, none)

/-! ## A calendar, for evaluating the engine on dates

A `time` library restricted to the layouts `2006-01-02` and `2006-01`. A time is
its count of nanoseconds since 0001-01-01 00:00 UTC, the zero value of
`time.Time`. A `float64` is written as the whole number of nanoseconds it stands
for (one hour is 3 600 000 000 000 of them), so `Hours` and the conversion of
integers are exact here. -/

/-- Days from 0001-01-01 to a date of the proleptic Gregorian calendar. -/
def dayNumber (y m d : Nat) : Nat :=
  let y1 := if m ≤ 2 then y - 1 else y
  let era := y1 / 400
  let yoe := y1 % 400
  let mp := if m ≤ 2 then m + 9 else m - 3
  let doy := (153 * mp + 2) / 5 + d - 1
  let doe := yoe * 365 + yoe / 4 - yoe / 100 + doy
  era * 146097 + doe - 306

/-- Year, month and day of a day number. -/
def civil (n : Nat) : Nat × Nat × Nat :=
  let z := n + 306
  let era := z / 146097
  let doe := z % 146097
  let yoe := (doe - doe / 1460 + doe / 36524 - doe / 146096) / 365
  let doy := doe - (365 * yoe + yoe / 4 - yoe / 100)
  let mp := (5 * doy + 2) / 153
  let d := doy - (153 * mp + 2) / 5 + 1
  let m := if mp < 10 then mp + 3 else mp - 9
  (if m ≤ 2 then yoe + era * 400 + 1 else yoe + era * 400, m, d)

/-- Leap years of the Gregorian calendar. -/
def isLeap (y : Nat) : Bool :=
  (y % 4 == 0 && y % 100 != 0) || y % 400 == 0

/-- Number of days of a month. -/
def daysIn (y m : Nat) : Nat :=
  if m == 2 then (if isLeap y then 29 else 28)
  else if m == 4 || m == 6 || m == 9 || m == 11 then 30 else 31

/-- Value of a decimal digit. -/
def digit? (c : Char) : Option Nat :=
  if 48 ≤ c.toNat ∧ c.toNat ≤ 57 then some (c.toNat - 48) else none

/-- Value of a string of decimal digits. -/
def number? (cs : List Char) : Option Nat :=
  cs.foldl (fun acc c =>
    match acc, digit? c with
    | some n, some k => some (10 * n + k)
    | _, _ => none) (some 0)

/-- The number `n` written with `width` decimal digits. -/
def digits (width n : Nat) : List Char :=
  (List.range width).reverse.map (fun i => Char.ofNat (48 + n / 10 ^ i % 10))

/-- Day number of a value of the layout `2006-01-02`. -/
def parseDate (value : List Char) : Option Nat :=
  match value with
  | [y1, y2, y3, y4, '-', m1, m2, '-', d1, d2] =>
    match number? [y1, y2, y3, y4], number? [m1, m2], number? [d1, d2] with
    | some y, some m, some d =>
      if 1 ≤ y ∧ 1 ≤ m ∧ m ≤ 12 ∧ 1 ≤ d ∧ d ≤ daysIn y m then some (dayNumber y m d) else none
    | _, _, _ => none
  | _ => none

/-- Nanoseconds of a day. -/
def nsPerDay : Int := 86400 * 1000000000

/-- Nanoseconds of an hour. -/
def nsPerHour : Int := 3600 * 1000000000

/-- A duration is an int64: a difference out of range is the nearest bound. -/
def saturate (d : Int) : Int :=
  if d < -(2 ^ 63) then -(2 ^ 63) else if 2 ^ 63 - 1 < d then 2 ^ 63 - 1 else d

/-- The calendar as a `time` library. On a value that does not parse, `Parse`
returns the zero time next to the error, as `time.Parse` does. -/
def calendar : TimeLib Int Int where
  Parse layout value :=
    if layout = "2006-01-02" then
      match parseDate value.data with
      | some n => (n * nsPerDay, none)
      | none => (0, some ("cannot parse [" ++ value ++ "] as [" ++ layout ++ "]"))
    else (0, some ("layout [" ++ layout ++ "] is not supported"))
  Format t layout :=
    let ymd := civil (t / nsPerDay).toNat
    if layout = "2006-01" then
      String.mk (digits 4 ymd.1 ++ ['-'] ++ digits 2 ymd.2.1)
    else if layout = "2006-01-02" then
      String.mk (digits 4 ymd.1 ++ ['-'] ++ digits 2 ymd.2.1 ++ ['-'] ++ digits 2 ymd.2.2)
    else layout
  Sub t u := saturate (t - u)
  Hours d := d
  float64 n := n * nsPerHour
  le x y := decide (x ≤ y)

/-- Midnight of a date, as a time of the calendar. -/
def midnight (y m d : Nat) : Int :=
  (dayNumber y m d : Int) * nsPerDay

/-- Options used in the examples: notes named by day, archives by month, notes
archived once older than three days. -/
def exampleOpts (names : List String) : Opts :=
  { File := { TimeFormat := "2006-01-02" }
    Archive := { AfterDays := 3, MonthTimeFormat := "2006-01" }
    Section := { Names := names } }

/-- Storage holding the given files and nothing else. -/
def diskOf (files : List (Path × Sections)) : Disk :=
  fun p => match files.lookup p with
    | some sections => FileState.stored sections
    | none => FileState.absent


/-- Sections are well formed when no name occurs twice and no section holds an
item twice. -/
def WellFormed (S : Sections) : Prop :=
  (S.map Prod.fst).Nodup ∧ ∀ s ∈ S, s.2.Nodup

/-- What `Add` maintains of a bucket stored under the key `k`, with the documents
of the specification: the date of the bucket formats to `k`, its path is the
archive path of `k`, and its sections are well formed. -/
def BucketOK {Time F : Type} (tl : TimeLib Time F) (ext : String) (opts : Opts) (k : String)
    (t : Document Time) : Prop :=
  tl.Format t.date opts.Archive.MonthTimeFormat = k
    ∧ t.path = Path.archive (k ++ ext)
    ∧ WellFormed t.sections

/-- The content of the sections `E`, as far as they are named in `names`, is kept
in `P`: every item of such a section of `E` occurs in the section of that name of
`P`, exactly once. -/
def Preserved (names : List String) (E P : Sections) : Prop :=
  ∀ n items, n ∈ names → E.lookup n = some items →
    ∃ merged, P.lookup n = some merged ∧ ∀ x ∈ items, merged.count x = 1

/-- Every piece of section content of `E` is kept in `P`: each item of each
section of `E` occurs in a section of that name of `P`, and there exactly once. -/
def KeepsAll (E P : Sections) : Prop :=
  ∀ s ∈ E, ∀ x ∈ s.2, ∃ merged, (s.1, merged) ∈ P ∧ merged.count x = 1

/-- What `Add` maintains of the section names of a bucket, with the documents of
the specification: they are the configured section names, each once. -/
def BucketNamed {Time : Type} (opts : Opts) (t : Document Time) : Prop :=
  t.sections.map Prod.fst = opts.Section.Names.dedup

/-- The note that `Add` reads for a name when storage holds the sections `N` at
its path, with the documents and the storage of the specification. -/
def specNote {Time F : Type} (tl : TimeLib Time F) (ext : String) (windows : Bool) (opts : Opts)
    (fileName : String) (N : Sections) : Document Time :=
  { date := (parseFileName tl windows fileName opts.File.TimeFormat).1
    path := Path.note
      (tl.Format (parseFileName tl windows fileName opts.File.TimeFormat).1 opts.File.TimeFormat
        ++ ext)
    sections := N }

/-- The section loop of `Add` for such a note on a new month archive. -/
def specBucket {Time F : Type} (tl : TimeLib Time F) (ext : String) (windows : Bool) (opts : Opts)
    (fileName : String) (N : Sections) : Document Time × Option Error :=
  archiveSections (specTemplate tl ext) (specNote tl ext windows opts fileName N)
    opts.Section.Names
    ((specTemplate tl ext).NewMonthArchiveTemplate opts
      (parseFileName tl windows fileName opts.File.TimeFormat).1)

/-- One run of the tool on one file, with the documents and the storage of the
specification: a new archiver for the reference time `now`, `Add` of the file,
then `Write`. Returns the error of `Add`, the error of `Write` and the storage
after the run. -/
def archiveOnce {Time F : Type} (tl : TimeLib Time F) (ext : String) (windows : Bool)
    (opts : Opts) (now : Time) (w : Disk) (fileName : String) (order : List String) :
    Option Error × Option Error × Disk :=
  let added := Add tl (specTemplate tl ext) windows
    (NewArchiver opts (specReadWriter Time) now) w fileName
  let written := Write (specTemplate tl ext) added.2.1 added.2.2 order
  (added.1, written.1, written.2.2)

/-- The document operations of the examples: the specification's, over the
calendar, for files ending in `.txt`. -/
def exampleTemplate : TemplateLib Int (Document Int) (Document Int) :=
  specTemplate calendar ".txt"

/-- Storage of the examples: the notes of 5, 6 and 9 April 2024. -/
def exampleDisk : Disk :=
  diskOf [(Path.note "2024-04-05.txt", [("notes", ["a", "b"]), ("todo", ["x"])]),
    (Path.note "2024-04-06.txt", [("notes", ["b", "c"]), ("todo", [])]),
    (Path.note "2024-04-09.txt", [("notes", ["d"]), ("todo", ["y"])])]

/-- Storage of the examples: a note of March that is complete and a note of April
that lacks the section `todo`. -/
def brokenDisk : Disk :=
  diskOf [(Path.note "2024-03-01.txt", [("notes", ["m"]), ("todo", [])]),
    (Path.note "2024-04-05.txt", [("notes", ["a"])])]

/-- Storage of the examples: a single note, at the path of the zero date. -/
def zeroDisk : Disk :=
  diskOf [(Path.note "0001-01-01.txt", [("notes", ["z"])])]

/-- A directory listing of the examples. -/
def exampleListing : List FileInfo :=
  [{ Name := "2024-04-05.txt", IsDir := false },
    { Name := "2024-04-06.txt", IsDir := false },
    { Name := "2024-04-09.txt", IsDir := false }]

/-- A directory listing of the examples with a name that has no file behind it. -/
def gapListing (post : List FileInfo) : List FileInfo :=
  [{ Name := "2024-04-05.txt", IsDir := false }] ++
    { Name := "2024-04-01.txt", IsDir := false } :: post

/-- Storage of the examples: the note of 5 April 2024 and a monthly archive for
April that was written before. -/
def archivedDisk : Disk :=
  diskOf [(Path.note "2024-04-05.txt", [("notes", ["a", "b"]), ("todo", ["x"])]),
    (Path.archive "2024-04.txt", [("notes", ["a", "old"]), ("todo", ["t"])])]

/-- An archiver of the examples: no bucket yet, reference time 2024-04-10 00:00. -/
def exampleArchiver (names : List String) : Archiver Int (Document Int) (Document Int) Disk :=
  NewArchiver (exampleOpts names) (specReadWriter Int) (midnight 2024 4 10)

/-- The archiver of the examples after `Add` of the note of 5 April 2024 over
`archivedDisk`. -/
def addedArchiver : Archiver Int (Document Int) (Document Int) Disk :=
  (Add calendar exampleTemplate false (exampleArchiver ["notes", "todo"]) archivedDisk
    "2024-04-05.txt").2.1

/-- Storage of the examples: the note of 5 April 2024 and a monthly archive for
April that holds, next to the configured sections, a section `ideas`. -/
def extraDisk : Disk :=
  diskOf [(Path.note "2024-04-05.txt", [("notes", ["a", "b"]), ("todo", ["x"])]),
    (Path.archive "2024-04.txt",
      [("notes", ["a", "old"]), ("todo", ["t"]), ("ideas", ["precious"])])]

/-- The archiver of the examples after `Add` of the note of 5 April 2024 over
`extraDisk`. -/
def extraArchiver : Archiver Int (Document Int) (Document Int) Disk :=
  (Add calendar exampleTemplate false (exampleArchiver ["notes", "todo"]) extraDisk
    "2024-04-05.txt").2.1

/-! ## Properties -/

section Properties

variable {Time F Tmpl MTmpl World : Type}

/-! ### parseFileName -/

theorem isPathSeparator_dot (windows : Bool) : IsPathSeparator windows '.' = false := by
  cases windows <;> decide

theorem extScan_dot (windows : Bool) (l rest : List Char) :
    ∀ after : List Char,
      (∀ c ∈ l, c ≠ '.' ∧ IsPathSeparator windows c = false) →
      extScan windows (l ++ '.' :: rest) after = '.' :: (l.reverse ++ after) := by
  induction l with
  | nil =>
    intro after _
    simp [extScan, isPathSeparator_dot]
  | cons c l ih =>
    intro after h
    have hc := h c (List.mem_cons_self c l)
    have hl : ∀ x ∈ l, x ≠ '.' ∧ IsPathSeparator windows x = false :=
      fun x hx => h x (List.mem_cons_of_mem c hx)
    simp [extScan, hc.1, hc.2, ih (c :: after) hl]

theorem extScan_no_dot (windows : Bool) (l : List Char) (h : '.' ∉ l) :
    ∀ after : List Char, extScan windows l after = [] := by
  induction l with
  | nil => intro after; rfl
  | cons c l ih =>
    intro after
    have hc : c ≠ '.' := fun e => h (e ▸ List.mem_cons_self c l)
    have hl : '.' ∉ l := fun m => h (List.mem_cons_of_mem c m)
    by_cases hs : IsPathSeparator windows c = true
    · simp [extScan, hs]
    · simp [extScan, hs, hc, ih hl]

theorem isExtension_cases (windows : Bool) (e : List Char) (he : isExtension windows e = true) :
    ∃ rest, e = '.' :: rest ∧ ∀ c ∈ rest, c ≠ '.' ∧ IsPathSeparator windows c = false := by
  unfold isExtension at he
  split at he
  · next rest =>
    refine ⟨rest, rfl, ?_⟩
    intro c hc
    have := (List.all_eq_true.mp he) c hc
    simpa using this
  · exact absurd he (by simp)

theorem Ext_append_extension (windows : Bool) (b e : List Char)
    (he : isExtension windows e = true) : Ext windows (b ++ e) = e := by
  obtain ⟨rest, rfl, hrest⟩ := isExtension_cases windows e he
  have hrev : ∀ c ∈ rest.reverse, c ≠ '.' ∧ IsPathSeparator windows c = false :=
    fun c hc => hrest c (List.mem_reverse.mp hc)
  have := extScan_dot windows rest.reverse b.reverse [] hrev
  simpa [Ext] using this

theorem Ext_no_dot (windows : Bool) (s : List Char) (h : '.' ∉ s) : Ext windows s = [] :=
  extScan_no_dot windows s.reverse (fun m => h (List.mem_reverse.mp m)) []

theorem TrimSuffix_append (b e : List Char) : TrimSuffix (b ++ e) e = b := by
  simp [TrimSuffix, HasSuffix]

theorem TrimSuffix_nil (s : List Char) : TrimSuffix s [] = s := by
  simp [TrimSuffix, HasSuffix]

/-- C10: parseFileName strips the file extension and parses the rest. For an
extension `e` (a dot followed by characters other than the dot and the path
separators) and any base `b`, `parseFileName (b ++ e)` is `time.Parse` of `b`, same
time and same error; a name without any dot is parsed whole; and a name made by
formatting a date and appending such an extension parses back to the date
whenever `time.Parse` reads back what `Format` wrote. -/
theorem parseFileName_strips_extension (tl : TimeLib Time F) (windows : Bool)
    (b e layout : String) (he : isExtension windows e.data = true) :
    parseFileName tl windows (b ++ e) layout = tl.Parse layout b
    ∧ (∀ name : String, '.' ∉ name.data →
        parseFileName tl windows name layout = tl.Parse layout name)
    ∧ (∀ d : Time, tl.Parse layout (tl.Format d layout) = (d, none) →
        parseFileName tl windows (tl.Format d layout ++ e) layout = (d, none)) := by
  have key : ∀ base : String, parseFileName tl windows (base ++ e) layout = tl.Parse layout base := by
    intro base
    simp [parseFileName, String.data_append, Ext_append_extension windows base.data e.data he,
      TrimSuffix_append]
  refine ⟨key b, ?_, ?_⟩
  · intro name hname
    simp [parseFileName, Ext_no_dot windows name.data hname, TrimSuffix_nil]
  · intro d hd
    rw [key, hd]

theorem parseFileName_strips_extension_witness :
    isExtension false ".txt".data = true
    ∧ (parseFileName calendar false ("2024-04-05" ++ ".txt") "2006-01-02"
          = calendar.Parse "2006-01-02" "2024-04-05"
        ∧ (∀ name : String, '.' ∉ name.data →
            parseFileName calendar false name "2006-01-02" = calendar.Parse "2006-01-02" name)
        ∧ (∀ d : Int, calendar.Parse "2006-01-02" (calendar.Format d "2006-01-02") = (d, none) →
            parseFileName calendar false (calendar.Format d "2006-01-02" ++ ".txt") "2006-01-02"
              = (d, none))) :=
  ⟨by decide, parseFileName_strips_extension calendar false "2024-04-05" ".txt" "2006-01-02"
    (by decide)⟩

/-! ### Add -/

theorem archiveSections_foldl (tp : TemplateLib Time Tmpl MTmpl) (t : Tmpl) (names : List String) :
    ∀ archive : MTmpl, (archiveSections tp t names archive).2 = none →
      (archiveSections tp t names archive).1
        = names.foldl (fun acc sec => (tp.ArchiveSectionContents acc t sec).1) archive := by
  induction names with
  | nil => intro archive _; rfl
  | cons sec rest ih =>
    intro archive h
    rcases hstep : tp.ArchiveSectionContents archive t sec with ⟨archive1, _ | err⟩
    · simp only [archiveSections, hstep] at h ⊢
      simpa [hstep] using ih archive1 h
    · simp [archiveSections, hstep] at h

theorem addContents_fst (tp : TemplateLib Time Tmpl MTmpl) (a : Archiver Time Tmpl MTmpl World)
    (w : World) (fileName : String) (t : Tmpl) (k : String) (months : String → Option MTmpl)
    (archive : MTmpl) :
    ((addContents tp a w fileName t k months archive).1 = none
      ↔ (archiveSections tp t a.opts.Section.Names archive).2 = none) := by
  unfold addContents
  rcases archiveSections tp t a.opts.Section.Names archive with ⟨archive1, _ | err⟩
  · simp
  · simp [Wrapf]

theorem addContents_snd (tp : TemplateLib Time Tmpl MTmpl) (a : Archiver Time Tmpl MTmpl World)
    (w : World) (fileName : String) (t : Tmpl) (k : String) (months : String → Option MTmpl)
    (archive : MTmpl) :
    (addContents tp a w fileName t k months archive).2
      = ({ a with
            Months := Function.update months k
              (some (archiveSections tp t a.opts.Section.Names archive).1) }, w) := by
  unfold addContents
  rcases archiveSections tp t a.opts.Section.Names archive with ⟨archive1, _ | err⟩ <;> rfl

/-- What `Add` returns for a file that is old enough and read without error: the
error of the section loop, and the map with the bucket after the loop stored
under the month key. -/
theorem Add_of_read (tl : TimeLib Time F) (tp : TemplateLib Time Tmpl MTmpl) (windows : Bool)
    (a : Archiver Time Tmpl MTmpl World) (w : World) (fileName : String)
    (hold : isRecent tl a.date a.opts.Archive.AfterDays (fileDateOf tl windows a fileName) = false)
    (hread : (readOf tl tp windows a w fileName).2.2 = none) :
    ((Add tl tp windows a w fileName).1 = none ↔ (mergeOf tl tp windows a w fileName).2 = none)
    ∧ (Add tl tp windows a w fileName).2
      = ({ a with
            Months := Function.update a.Months (monthKeyOf tl windows a fileName)
              (some (mergeOf tl tp windows a w fileName).1) },
          (readOf tl tp windows a w fileName).1) := by
  unfold mergeOf
  unfold readOf at hread ⊢
  unfold fileDateOf at hold hread ⊢
  unfold Add
  simp only [hold, Bool.false_eq_true, if_false]
  rcases hr : a.rw.Read w (tp.NewTemplate a.opts
      (parseFileName tl windows fileName a.opts.File.TimeFormat).1) with ⟨w1, t1, _ | err⟩
  · simp only
    unfold bucketOf monthKeyOf fileDateOf
    rcases hm : a.Months (tl.Format (parseFileName tl windows fileName a.opts.File.TimeFormat).1
        a.opts.Archive.MonthTimeFormat) with _ | archive
    · simp only [Option.getD_none]
      refine ⟨addContents_fst _ _ _ _ _ _ _ _, ?_⟩
      rw [addContents_snd, Function.update_idem]
    · simp only [Option.getD_some]
      exact ⟨addContents_fst _ _ _ _ _ _ _ _, addContents_snd _ _ _ _ _ _ _ _⟩
  · simp [hr] at hread

/-- What `Add` returns for a file that is old enough and cannot be read. -/
theorem Add_of_read_error (tl : TimeLib Time F) (tp : TemplateLib Time Tmpl MTmpl)
    (windows : Bool) (a : Archiver Time Tmpl MTmpl World) (w : World) (fileName : String)
    (hold : isRecent tl a.date a.opts.Archive.AfterDays (fileDateOf tl windows a fileName) = false)
    (hread : (readOf tl tp windows a w fileName).2.2 ≠ none) :
    (Add tl tp windows a w fileName).1 ≠ none
    ∧ (Add tl tp windows a w fileName).2 = (a, (readOf tl tp windows a w fileName).1) := by
  unfold readOf at hread ⊢
  unfold fileDateOf at hold hread ⊢
  unfold Add
  simp only [hold, Bool.false_eq_true, if_false]
  rcases hr : a.rw.Read w (tp.NewTemplate a.opts
      (parseFileName tl windows fileName a.opts.File.TimeFormat).1) with ⟨w1, t1, _ | err⟩
  · simp [hr] at hread
  · simp [Wrapf]

/-- What `Add` returns for a file that is not old enough. -/
theorem Add_of_recent (tl : TimeLib Time F) (tp : TemplateLib Time Tmpl MTmpl)
    (windows : Bool) (a : Archiver Time Tmpl MTmpl World) (w : World) (fileName : String)
    (hrecent : isRecent tl a.date a.opts.Archive.AfterDays (fileDateOf tl windows a fileName)
      = true) :
    Add tl tp windows a w fileName = (none, a, w) := by
  unfold fileDateOf at hrecent
  unfold Add
  simp only [hrecent, if_true]

/-- C4: Add is a no-op on files that are not old enough. When the guard
`a.date.Sub(fileDate).Hours() <= float64(AfterDays*24)` holds for the parsed date
(equality included), Add returns nil, the archiver is the one it was (same keys,
same documents) and so is the state of the read/write collaborator, whatever its
Read would do; and putting any other collaborator in its place gives the same
result: Read is not called. -/
theorem Add_recent_is_noop (tl : TimeLib Time F) (tp : TemplateLib Time Tmpl MTmpl)
    (windows : Bool) (a : Archiver Time Tmpl MTmpl World) (w : World) (fileName : String)
    (hrecent : isRecent tl a.date a.opts.Archive.AfterDays (fileDateOf tl windows a fileName)
      = true) :
    (Add tl tp windows a w fileName).1 = none
    ∧ (Add tl tp windows a w fileName).2.1 = a
    ∧ (Add tl tp windows a w fileName).2.1.Months = a.Months
    ∧ (Add tl tp windows a w fileName).2.2 = w
    ∧ (∀ other : readWriter World Tmpl MTmpl,
        Add tl tp windows { a with rw := other } w fileName = (none, { a with rw := other }, w)) := by
  unfold fileDateOf at hrecent
  unfold Add
  simp only [hrecent, if_true, and_self, implies_true]

theorem Add_recent_is_noop_witness :
    (isRecent calendar (exampleArchiver ["notes"]).date
        (exampleArchiver ["notes"]).opts.Archive.AfterDays
        (fileDateOf calendar false (exampleArchiver ["notes"]) "2024-04-07.txt") = true
      ∧ calendar.Sub (midnight 2024 4 10) (midnight 2024 4 7) = 3 * 24 * nsPerHour)
    ∧ (Add calendar exampleTemplate false (exampleArchiver ["notes"])
        (diskOf [(Path.note "2024-04-07.txt", [("notes", ["a"])])]) "2024-04-07.txt").1 = none
    ∧ (Add calendar exampleTemplate false (exampleArchiver ["notes"])
        (diskOf [(Path.note "2024-04-07.txt", [("notes", ["a"])])]) "2024-04-07.txt").2.1
      = exampleArchiver ["notes"]
    ∧ (Add calendar exampleTemplate false (exampleArchiver ["notes"])
        (diskOf [(Path.note "2024-04-07.txt", [("notes", ["a"])])]) "2024-04-07.txt").2.1.Months
      = (exampleArchiver ["notes"]).Months
    ∧ (Add calendar exampleTemplate false (exampleArchiver ["notes"])
        (diskOf [(Path.note "2024-04-07.txt", [("notes", ["a"])])]) "2024-04-07.txt").2.2
      = diskOf [(Path.note "2024-04-07.txt", [("notes", ["a"])])]
    ∧ (∀ other : readWriter Disk (Document Int) (Document Int),
        Add calendar exampleTemplate false { exampleArchiver ["notes"] with rw := other }
          (diskOf [(Path.note "2024-04-07.txt", [("notes", ["a"])])]) "2024-04-07.txt"
        = (none, { exampleArchiver ["notes"] with rw := other },
            diskOf [(Path.note "2024-04-07.txt", [("notes", ["a"])])])) :=
  ⟨⟨by decide, by decide⟩,
    Add_recent_is_noop calendar exampleTemplate false (exampleArchiver ["notes"])
      (diskOf [(Path.note "2024-04-07.txt", [("notes", ["a"])])]) "2024-04-07.txt" (by decide)⟩

/-- C5: Add places an eligible file in its month's bucket. For a file that is old
enough, whose Read succeeds and whose section merges all succeed, Add returns
nil; afterwards the map holds, under the date formatted with MonthTimeFormat, the
bucket obtained by applying ArchiveSectionContents with the template that was
read, once per configured section name and in configured order, to the document
that was stored under that key, or to a new month archive document if the key
was absent; the buckets under all other keys are the ones they were. -/
theorem Add_eligible_fills_month_bucket (tl : TimeLib Time F)
    (tp : TemplateLib Time Tmpl MTmpl) (windows : Bool) (a : Archiver Time Tmpl MTmpl World)
    (w : World) (fileName : String)
    (hold : isRecent tl a.date a.opts.Archive.AfterDays (fileDateOf tl windows a fileName) = false)
    (hread : (readOf tl tp windows a w fileName).2.2 = none)
    (hmerge : (mergeOf tl tp windows a w fileName).2 = none) :
    (Add tl tp windows a w fileName).1 = none
    ∧ (Add tl tp windows a w fileName).2.1.Months (monthKeyOf tl windows a fileName)
        = some (a.opts.Section.Names.foldl
            (fun archive sec =>
              (tp.ArchiveSectionContents archive (readOf tl tp windows a w fileName).2.1 sec).1)
            (bucketOf tl tp windows a fileName))
    ∧ (a.Months (monthKeyOf tl windows a fileName) = none →
        bucketOf tl tp windows a fileName
          = tp.NewMonthArchiveTemplate a.opts (fileDateOf tl windows a fileName))
    ∧ (∀ stored, a.Months (monthKeyOf tl windows a fileName) = some stored →
        bucketOf tl tp windows a fileName = stored)
    ∧ (∀ k, k ≠ monthKeyOf tl windows a fileName →
        (Add tl tp windows a w fileName).2.1.Months k = a.Months k) := by
  obtain ⟨herr, hres⟩ := Add_of_read tl tp windows a w fileName hold hread
  refine ⟨herr.mpr hmerge, ?_, ?_, ?_, ?_⟩
  · rw [hres]
    unfold mergeOf at hmerge ⊢
    rw [← archiveSections_foldl tp _ _ _ hmerge]
    simp
  · intro hnone
    simp [bucketOf, hnone]
  · intro stored hsome
    simp [bucketOf, hsome]
  · intro k hk
    rw [hres]
    simp [Function.update_noteq hk]

theorem Add_eligible_fills_month_bucket_witness :
    (isRecent calendar (exampleArchiver ["notes", "todo"]).date
        (exampleArchiver ["notes", "todo"]).opts.Archive.AfterDays
        (fileDateOf calendar false (exampleArchiver ["notes", "todo"]) "2024-04-05.txt") = false
      ∧ (readOf calendar exampleTemplate false (exampleArchiver ["notes", "todo"])
          exampleDisk "2024-04-05.txt").2.2 = none
      ∧ (mergeOf calendar exampleTemplate false (exampleArchiver ["notes", "todo"])
          exampleDisk "2024-04-05.txt").2 = none
      ∧ monthKeyOf calendar false (exampleArchiver ["notes", "todo"]) "2024-04-05.txt" = "2024-04"
      ∧ ((Add calendar exampleTemplate false (exampleArchiver ["notes", "todo"])
          exampleDisk "2024-04-05.txt").2.1.Months "2024-04").map (fun d => d.sections)
          = some [("notes", ["a", "b"]), ("todo", ["x"])])
    ∧ (Add calendar exampleTemplate false (exampleArchiver ["notes", "todo"])
          exampleDisk "2024-04-05.txt").1 = none :=
  ⟨⟨by decide, by decide, by decide, by decide, by decide⟩,
    (Add_eligible_fills_month_bucket calendar exampleTemplate false
      (exampleArchiver ["notes", "todo"]) exampleDisk "2024-04-05.txt"
      (by decide) (by decide) (by decide)).1⟩

/-- C8: a failing Add affects only its own file. For a file that is old enough,
if Read fails, or Read succeeds and some call of ArchiveSectionContents fails,
then Add returns a non-nil error and the bucket under every other month key is
the one it was; when the failure is in Read, the whole archiver, map included,
is the one it was. -/
theorem Add_failure_is_local (tl : TimeLib Time F) (tp : TemplateLib Time Tmpl MTmpl)
    (windows : Bool) (a : Archiver Time Tmpl MTmpl World) (w : World) (fileName : String)
    (hold : isRecent tl a.date a.opts.Archive.AfterDays (fileDateOf tl windows a fileName) = false)
    (hfail : (readOf tl tp windows a w fileName).2.2 ≠ none
      ∨ ((readOf tl tp windows a w fileName).2.2 = none
          ∧ (mergeOf tl tp windows a w fileName).2 ≠ none)) :
    (Add tl tp windows a w fileName).1 ≠ none
    ∧ (∀ k, k ≠ monthKeyOf tl windows a fileName →
        (Add tl tp windows a w fileName).2.1.Months k = a.Months k)
    ∧ ((readOf tl tp windows a w fileName).2.2 ≠ none →
        (Add tl tp windows a w fileName).2.1 = a) := by
  rcases hfail with hread | ⟨hread, hmerge⟩
  · obtain ⟨herr, hres⟩ := Add_of_read_error tl tp windows a w fileName hold hread
    refine ⟨herr, ?_, ?_⟩
    · intro k _
      rw [hres]
    · intro _
      rw [hres]
  · obtain ⟨herr, hres⟩ := Add_of_read tl tp windows a w fileName hold hread
    refine ⟨fun h => hmerge (herr.mp h), ?_, ?_⟩
    · intro k hk
      rw [hres]
      simp [Function.update_noteq hk]
    · intro h
      exact absurd hread h

theorem Add_failure_is_local_witness :
    (isRecent calendar (exampleArchiver ["notes", "todo"]).date
        (exampleArchiver ["notes", "todo"]).opts.Archive.AfterDays
        (fileDateOf calendar false
          (Add calendar exampleTemplate false (exampleArchiver ["notes", "todo"]) brokenDisk
            "2024-03-01.txt").2.1 "2024-04-05.txt") = false
      ∧ (readOf calendar exampleTemplate false
          (Add calendar exampleTemplate false (exampleArchiver ["notes", "todo"]) brokenDisk
            "2024-03-01.txt").2.1 brokenDisk "2024-04-05.txt").2.2 = none
      ∧ (mergeOf calendar exampleTemplate false
          (Add calendar exampleTemplate false (exampleArchiver ["notes", "todo"]) brokenDisk
            "2024-03-01.txt").2.1 brokenDisk "2024-04-05.txt").2 ≠ none
      ∧ ((Add calendar exampleTemplate false (exampleArchiver ["notes", "todo"]) brokenDisk
            "2024-03-01.txt").2.1.Months "2024-03").map (fun d => d.sections)
          = some [("notes", ["m"]), ("todo", [])])
    ∧ (Add calendar exampleTemplate false
          (Add calendar exampleTemplate false (exampleArchiver ["notes", "todo"]) brokenDisk
            "2024-03-01.txt").2.1 brokenDisk "2024-04-05.txt").1 ≠ none :=
  ⟨⟨by decide, by decide, by decide, by decide⟩,
    (Add_failure_is_local calendar exampleTemplate false
      (Add calendar exampleTemplate false (exampleArchiver ["notes", "todo"]) brokenDisk
        "2024-03-01.txt").2.1 brokenDisk "2024-04-05.txt"
      (by decide) (Or.inr ⟨by decide, by decide⟩)).1⟩

/-- An error of parseFileName does not stop `Add`: whenever the time that came
with the error is old enough and Read succeeds for it, the map holds a bucket
under the month key of that time afterwards. -/
theorem Add_unparsable_not_skipped (tl : TimeLib Time F) (tp : TemplateLib Time Tmpl MTmpl)
    (windows : Bool) (a : Archiver Time Tmpl MTmpl World) (w : World) (fileName : String)
    (_hparse : (parseFileName tl windows fileName a.opts.File.TimeFormat).2 ≠ none)
    (hold : isRecent tl a.date a.opts.Archive.AfterDays (fileDateOf tl windows a fileName) = false)
    (hread : (readOf tl tp windows a w fileName).2.2 = none) :
    ((Add tl tp windows a w fileName).2.1.Months (monthKeyOf tl windows a fileName)).isSome
      = true := by
  rw [(Add_of_read tl tp windows a w fileName hold hread).2]
  simp

/-- C7, the behaviour of the code: the name `notes.txt` does not parse, yet Add
does not skip it. The error of parseFileName is wrapped and dropped, Add goes on
with the zero time that came with the error, reads the note stored for that
date, and returns nil with a new bucket under the month key of the zero time. -/
theorem Add_unparsable_name_creates_bucket :
    (parseFileName calendar false "notes.txt" (exampleArchiver ["notes"]).opts.File.TimeFormat).2
        ≠ none
    ∧ (exampleArchiver ["notes"]).Months "0001-01" = none
    ∧ (Add calendar exampleTemplate false (exampleArchiver ["notes"]) zeroDisk "notes.txt").1 = none
    ∧ ((Add calendar exampleTemplate false (exampleArchiver ["notes"]) zeroDisk
          "notes.txt").2.1.Months "0001-01").map (fun d => d.sections)
        = some [("notes", ["z"])] := by
  decide

/-- Two calls of `Add` in a row for files of the same month that are old enough and
readable: the map after the second call. The second call finds the bucket the
first one left. -/
theorem addTwo_months (tl : TimeLib Time F) (tp : TemplateLib Time Tmpl MTmpl) (windows : Bool)
    (a : Archiver Time Tmpl MTmpl World) (w : World) (f g : String)
    (hf : isRecent tl a.date a.opts.Archive.AfterDays (fileDateOf tl windows a f) = false)
    (hg : isRecent tl a.date a.opts.Archive.AfterDays (fileDateOf tl windows a g) = false)
    (hrf : (readOf tl tp windows a w f).2.2 = none) (hwf : (readOf tl tp windows a w f).1 = w)
    (hrg : (readOf tl tp windows a w g).2.2 = none)
    (hk : monthKeyOf tl windows a f = monthKeyOf tl windows a g) :
    (addTwo tl tp windows a w f g).2.1.Months
      = Function.update a.Months (monthKeyOf tl windows a f)
          (some (archiveSections tp (readOf tl tp windows a w g).2.1 a.opts.Section.Names
            (mergeOf tl tp windows a w f).1).1) := by
  obtain ⟨_, hres⟩ := Add_of_read tl tp windows a w f hf hrf
  unfold addTwo
  rw [hres, hwf]
  obtain ⟨_, hres2⟩ := Add_of_read tl tp windows
    { a with
      Months := Function.update a.Months (monthKeyOf tl windows a f)
        (some (mergeOf tl tp windows a w f).1) } w g hg hrg
  simp only at hres2 ⊢
  rw [hres2]
  have hkey : monthKeyOf tl windows
      { a with
        Months := Function.update a.Months (monthKeyOf tl windows a f)
          (some (mergeOf tl tp windows a w f).1) } g = monthKeyOf tl windows a f := hk.symm
  simp only [hkey, Function.update_idem]
  unfold mergeOf
  have hb : bucketOf tl tp windows
      { a with
        Months := Function.update a.Months (monthKeyOf tl windows a f)
          (some (archiveSections tp (readOf tl tp windows a w f).2.1 a.opts.Section.Names
            (bucketOf tl tp windows a f)).1) } g
      = (archiveSections tp (readOf tl tp windows a w f).2.1 a.opts.Section.Names
          (bucketOf tl tp windows a f)).1 := by
    unfold bucketOf
    rw [show monthKeyOf tl windows
      { a with
        Months := Function.update a.Months (monthKeyOf tl windows a f)
          (some (archiveSections tp (readOf tl tp windows a w f).2.1 a.opts.Section.Names
            ((a.Months (monthKeyOf tl windows a f)).getD
              (tp.NewMonthArchiveTemplate a.opts (fileDateOf tl windows a f)))).1) } g
        = monthKeyOf tl windows a f from hk.symm]
    simp
  rw [hb]
  rfl

/-- C6: same-month files share one bucket regardless of order. For two files that
are old enough and readable (Read succeeds and leaves the store as it is) and whose
dates format to the same month key, adding the first and then the second, or the
second and then the first, gives maps with the same keys, namely those held
before and the month key; under the month key there is, in each order, the
bucket that the second call took over from the first call and applied its own
section loop to; the buckets under all other keys are untouched. -/
theorem Add_same_month_shares_bucket (tl : TimeLib Time F) (tp : TemplateLib Time Tmpl MTmpl)
    (windows : Bool) (a : Archiver Time Tmpl MTmpl World) (w : World) (f1 f2 : String)
    (hold1 : isRecent tl a.date a.opts.Archive.AfterDays (fileDateOf tl windows a f1) = false)
    (hold2 : isRecent tl a.date a.opts.Archive.AfterDays (fileDateOf tl windows a f2) = false)
    (hread1 : (readOf tl tp windows a w f1).2.2 = none ∧ (readOf tl tp windows a w f1).1 = w)
    (hread2 : (readOf tl tp windows a w f2).2.2 = none ∧ (readOf tl tp windows a w f2).1 = w)
    (hkey : monthKeyOf tl windows a f1 = monthKeyOf tl windows a f2) :
    (∀ k, ((addTwo tl tp windows a w f1 f2).2.1.Months k).isSome
        = ((addTwo tl tp windows a w f2 f1).2.1.Months k).isSome)
    ∧ (∀ k, ((addTwo tl tp windows a w f1 f2).2.1.Months k).isSome
        = (decide (k = monthKeyOf tl windows a f1) || (a.Months k).isSome))
    ∧ (addTwo tl tp windows a w f1 f2).2.1.Months (monthKeyOf tl windows a f1)
        = some (archiveSections tp (readOf tl tp windows a w f2).2.1 a.opts.Section.Names
            (archiveSections tp (readOf tl tp windows a w f1).2.1 a.opts.Section.Names
              (bucketOf tl tp windows a f1)).1).1
    ∧ (addTwo tl tp windows a w f2 f1).2.1.Months (monthKeyOf tl windows a f1)
        = some (archiveSections tp (readOf tl tp windows a w f1).2.1 a.opts.Section.Names
            (archiveSections tp (readOf tl tp windows a w f2).2.1 a.opts.Section.Names
              (bucketOf tl tp windows a f2)).1).1
    ∧ (∀ k, k ≠ monthKeyOf tl windows a f1 →
        (addTwo tl tp windows a w f1 f2).2.1.Months k = a.Months k
        ∧ (addTwo tl tp windows a w f2 f1).2.1.Months k = a.Months k) := by
  have h12 := addTwo_months tl tp windows a w f1 f2 hold1 hold2 hread1.1 hread1.2 hread2.1 hkey
  have h21 := addTwo_months tl tp windows a w f2 f1 hold2 hold1 hread2.1 hread2.2 hread1.1
    hkey.symm
  rw [← hkey] at h21
  have hsome : ∀ (x : MTmpl) (k : String),
      (Function.update a.Months (monthKeyOf tl windows a f1) (some x) k).isSome
        = (decide (k = monthKeyOf tl windows a f1) || (a.Months k).isSome) := by
    intro x k
    by_cases hk : k = monthKeyOf tl windows a f1
    · subst hk
      simp
    · simp [Function.update_noteq hk, hk]
  refine ⟨?_, ?_, ?_, ?_, ?_⟩
  · intro k
    rw [h12, h21, hsome, hsome]
  · intro k
    rw [h12, hsome]
  · rw [h12]
    simp [mergeOf]
  · rw [h21]
    simp [mergeOf]
  · intro k hk
    rw [h12, h21]
    simp [Function.update_noteq hk]

theorem Add_same_month_shares_bucket_witness :
    (isRecent calendar (exampleArchiver ["notes", "todo"]).date
        (exampleArchiver ["notes", "todo"]).opts.Archive.AfterDays
        (fileDateOf calendar false (exampleArchiver ["notes", "todo"]) "2024-04-05.txt") = false
      ∧ isRecent calendar (exampleArchiver ["notes", "todo"]).date
        (exampleArchiver ["notes", "todo"]).opts.Archive.AfterDays
        (fileDateOf calendar false (exampleArchiver ["notes", "todo"]) "2024-04-06.txt") = false
      ∧ monthKeyOf calendar false (exampleArchiver ["notes", "todo"]) "2024-04-05.txt" = "2024-04"
      ∧ monthKeyOf calendar false (exampleArchiver ["notes", "todo"]) "2024-04-06.txt" = "2024-04"
      ∧ ((addTwo calendar exampleTemplate false (exampleArchiver ["notes", "todo"]) exampleDisk
          "2024-04-05.txt" "2024-04-06.txt").2.1.Months "2024-04").map (fun d => d.sections)
          = some [("notes", ["a", "b", "c"]), ("todo", ["x"])]
      ∧ ((addTwo calendar exampleTemplate false (exampleArchiver ["notes", "todo"]) exampleDisk
          "2024-04-06.txt" "2024-04-05.txt").2.1.Months "2024-04").map (fun d => d.sections)
          = some [("notes", ["b", "c", "a"]), ("todo", ["x"])])
    ∧ (∀ k, ((addTwo calendar exampleTemplate false (exampleArchiver ["notes", "todo"])
          exampleDisk "2024-04-05.txt" "2024-04-06.txt").2.1.Months k).isSome
        = ((addTwo calendar exampleTemplate false (exampleArchiver ["notes", "todo"])
          exampleDisk "2024-04-06.txt" "2024-04-05.txt").2.1.Months k).isSome) :=
  ⟨⟨by decide, by decide, by decide, by decide, by decide, by decide⟩,
    (Add_same_month_shares_bucket calendar exampleTemplate false
      (exampleArchiver ["notes", "todo"]) exampleDisk "2024-04-05.txt" "2024-04-06.txt"
      (by decide) (by decide) ⟨by decide, rfl⟩ ⟨by decide, rfl⟩ (by decide)).1⟩

/-! ### The command -/

/-- `Add` changes nothing of the archiver but the map. -/
theorem Add_frame (tl : TimeLib Time F) (tp : TemplateLib Time Tmpl MTmpl) (windows : Bool)
    (a : Archiver Time Tmpl MTmpl World) (w : World) (fileName : String) :
    (Add tl tp windows a w fileName).2.1
      = { a with Months := (Add tl tp windows a w fileName).2.1.Months } := by
  rcases hr : isRecent tl a.date a.opts.Archive.AfterDays (fileDateOf tl windows a fileName)
  · by_cases hread : (readOf tl tp windows a w fileName).2.2 = none
    · rw [(Add_of_read tl tp windows a w fileName hr hread).2]
    · rw [(Add_of_read_error tl tp windows a w fileName hr hread).2]
  · rw [Add_of_recent tl tp windows a w fileName hr]

/-- With a Read that leaves the store as it is, `Add` leaves it as it is. -/
theorem Add_world (tl : TimeLib Time F) (tp : TemplateLib Time Tmpl MTmpl) (windows : Bool)
    (a : Archiver Time Tmpl MTmpl World) (w : World) (fileName : String)
    (hpure : ∀ (v : World) (t : Tmpl), (a.rw.Read v t).1 = v) :
    (Add tl tp windows a w fileName).2.2 = w := by
  have hw : (readOf tl tp windows a w fileName).1 = w := hpure w _
  rcases hr : isRecent tl a.date a.opts.Archive.AfterDays (fileDateOf tl windows a fileName)
  · by_cases hread : (readOf tl tp windows a w fileName).2.2 = none
    · rw [(Add_of_read tl tp windows a w fileName hr hread).2]
      exact hw
    · rw [(Add_of_read_error tl tp windows a w fileName hr hread).2]
      exact hw
  · rw [Add_of_recent tl tp windows a w fileName hr]

theorem addFiles_append (tl : TimeLib Time F) (tp : TemplateLib Time Tmpl MTmpl)
    (windows : Bool) (pre rest : List FileInfo) :
    ∀ (a : Archiver Time Tmpl MTmpl World) (w : World) (archived : List String),
      addFiles tl tp windows (pre ++ rest) a w archived
        = addFiles tl tp windows rest (addFiles tl tp windows pre a w archived).1
            (addFiles tl tp windows pre a w archived).2.1
            (addFiles tl tp windows pre a w archived).2.2 := by
  induction pre with
  | nil => intro a w archived; rfl
  | cons f pre ih =>
    intro a w archived
    simp only [List.cons_append, addFiles]
    split
    · exact ih a w archived
    · split
      · exact ih a w archived
      · split
        · next a1 w1 _ => exact ih a1 w1 archived
        · next a1 w1 _ => exact ih a1 w1 (archived ++ [f.Name])

theorem addFiles_rw (tl : TimeLib Time F) (tp : TemplateLib Time Tmpl MTmpl)
    (windows : Bool) (files : List FileInfo) :
    ∀ (a : Archiver Time Tmpl MTmpl World) (w : World) (archived : List String),
      (addFiles tl tp windows files a w archived).1.rw = a.rw := by
  induction files with
  | nil => intro a w archived; rfl
  | cons f files ih =>
    intro a w archived
    simp only [addFiles]
    split
    · exact ih a w archived
    · split
      · exact ih a w archived
      · have hfr := Add_frame tl tp windows a w f.Name
        split
        · next a1 w1 heq =>
          rw [ih a1 w1 archived]
          rw [heq] at hfr
          simp only at hfr
          rw [hfr]
        · next a1 w1 heq =>
          rw [ih a1 w1 (archived ++ [f.Name])]
          rw [heq] at hfr
          simp only at hfr
          rw [hfr]

/-- C9: a bad file does not abort the batch. Let `run` process the directory
entries `pre ++ f :: post`, with a read/write collaborator whose Read leaves the
store as it is. If Add returns an error for `f` and leaves the bucket map as it
was, then the loop goes on with `post` exactly as if `f` had not been listed: the
archiver, the store and the slice of archived names after the loop are those of
processing `pre ++ post`; and `f` is not appended to the archived names. -/
theorem addFiles_skips_failing_file (tl : TimeLib Time F) (tp : TemplateLib Time Tmpl MTmpl)
    (windows : Bool) (pre post : List FileInfo) (f : FileInfo)
    (a : Archiver Time Tmpl MTmpl World) (w : World) (archived : List String)
    (hpure : ∀ (v : World) (t : Tmpl), (a.rw.Read v t).1 = v)
    (hfail : (Add tl tp windows (addFiles tl tp windows pre a w archived).1
      (addFiles tl tp windows pre a w archived).2.1 f.Name).1 ≠ none)
    (hsame : (Add tl tp windows (addFiles tl tp windows pre a w archived).1
        (addFiles tl tp windows pre a w archived).2.1 f.Name).2.1.Months
      = (addFiles tl tp windows pre a w archived).1.Months) :
    addFiles tl tp windows (pre ++ f :: post) a w archived
      = addFiles tl tp windows (pre ++ post) a w archived
    ∧ (addFiles tl tp windows (pre ++ [f]) a w archived).2.2
      = (addFiles tl tp windows pre a w archived).2.2 := by
  have hpure1 : ∀ (v : World) (t : Tmpl),
      ((addFiles tl tp windows pre a w archived).1.rw.Read v t).1 = v := by
    rw [addFiles_rw]
    exact hpure
  have hw := Add_world tl tp windows (addFiles tl tp windows pre a w archived).1
    (addFiles tl tp windows pre a w archived).2.1 f.Name hpure1
  have ha := Add_frame tl tp windows (addFiles tl tp windows pre a w archived).1
    (addFiles tl tp windows pre a w archived).2.1 f.Name
  rw [hsame] at ha
  have hstep : ∀ rest : List FileInfo,
      addFiles tl tp windows (f :: rest) (addFiles tl tp windows pre a w archived).1
          (addFiles tl tp windows pre a w archived).2.1
          (addFiles tl tp windows pre a w archived).2.2
        = addFiles tl tp windows rest (addFiles tl tp windows pre a w archived).1
          (addFiles tl tp windows pre a w archived).2.1
          (addFiles tl tp windows pre a w archived).2.2 := by
    intro rest
    simp only [addFiles]
    split
    · rfl
    · split
      · rfl
      · split
        · next a1 w1 heq =>
          rw [heq] at hw ha
          simp only at hw ha
          rw [hw, ha]
        · next a1 w1 heq =>
          rw [heq] at hfail
          exact absurd rfl hfail
  refine ⟨?_, ?_⟩
  · rw [addFiles_append, hstep, ← addFiles_append]
  · rw [addFiles_append, hstep]
    rfl

theorem specReadWriter_Read_world (Time : Type) (v : Disk) (t : Document Time) :
    ((specReadWriter Time).Read v t).1 = v := by
  simp only [specReadWriter]
  split <;> rfl

theorem addFiles_skips_failing_file_witness :
    ((∀ (v : Disk) (t : Document Int), ((exampleArchiver ["notes", "todo"]).rw.Read v t).1 = v)
      ∧ (Add calendar exampleTemplate false
          (addFiles calendar exampleTemplate false
            [{ Name := "2024-04-05.txt", IsDir := false }]
            (exampleArchiver ["notes", "todo"]) exampleDisk []).1
          (addFiles calendar exampleTemplate false
            [{ Name := "2024-04-05.txt", IsDir := false }]
            (exampleArchiver ["notes", "todo"]) exampleDisk []).2.1 "2024-04-01.txt").1 ≠ none
      ∧ ((addFiles calendar exampleTemplate false
            (gapListing [{ Name := "2024-04-06.txt", IsDir := false }])
            (exampleArchiver ["notes", "todo"]) exampleDisk []).1.Months "2024-04").map
            (fun d => d.sections)
          = some [("notes", ["a", "b", "c"]), ("todo", ["x"])])
    ∧ (addFiles calendar exampleTemplate false
          (gapListing [{ Name := "2024-04-06.txt", IsDir := false }])
          (exampleArchiver ["notes", "todo"]) exampleDisk []).2.2
      = ["2024-04-05.txt", "2024-04-06.txt"] :=
  ⟨⟨specReadWriter_Read_world Int, by decide, by decide⟩,
    ((addFiles_skips_failing_file calendar exampleTemplate false
      [{ Name := "2024-04-05.txt", IsDir := false }]
      [{ Name := "2024-04-06.txt", IsDir := false }]
      { Name := "2024-04-01.txt", IsDir := false }
      (exampleArchiver ["notes", "todo"]) exampleDisk []
      (specReadWriter_Read_world Int) (by decide) rfl).1 ▸ (by decide))⟩

/-! ### The archived names of the command -/

/-- The first loop of `run` only appends to the archived names. -/
theorem addFiles_archived_mono (tl : TimeLib Time F) (tp : TemplateLib Time Tmpl MTmpl)
    (windows : Bool) (x : String) (files : List FileInfo) :
    ∀ (a : Archiver Time Tmpl MTmpl World) (w : World) (archived : List String),
      x ∈ archived → x ∈ (addFiles tl tp windows files a w archived).2.2 := by
  induction files with
  | nil => intro a w archived h; exact h
  | cons g rest ih =>
    intro a w archived h
    simp only [addFiles]
    split
    · exact ih a w archived h
    · split
      · exact ih a w archived h
      · split
        · next a1 w1 _ => exact ih a1 w1 archived h
        · next a1 w1 _ => exact ih a1 w1 (archived ++ [g.Name]) (List.mem_append_left _ h)

/-- The first loop of `run` records every listed template file that is not old
enough among the archived names: for such a file Add returns nil, and the loop
appends every name for which Add returned nil. -/
theorem addFiles_records_recent (tl : TimeLib Time F) (tp : TemplateLib Time Tmpl MTmpl)
    (windows : Bool) (f : FileInfo) (files : List FileInfo) :
    ∀ (a : Archiver Time Tmpl MTmpl World) (w : World) (archived : List String),
      f ∈ files → f.IsDir = false → tp.IsTemplateFile f.Name a.opts.File = true →
      isRecent tl a.date a.opts.Archive.AfterDays (fileDateOf tl windows a f.Name) = true →
      f.Name ∈ (addFiles tl tp windows files a w archived).2.2 := by
  induction files with
  | nil => intro a w archived h; simp at h
  | cons g rest ih =>
    intro a w archived hmem hdir htmpl hrecent
    by_cases hfg : f = g
    · subst hfg
      simp only [addFiles, hdir, htmpl, Bool.false_eq_true, if_false, Bool.not_true]
      rw [Add_of_recent tl tp windows a w f.Name hrecent]
      exact addFiles_archived_mono tl tp windows f.Name rest a w _ (by simp)
    · have hrest : f ∈ rest := by
        rcases List.mem_cons.mp hmem with h | h
        · exact absurd h hfg
        · exact h
      simp only [addFiles]
      split
      · exact ih a w archived hrest hdir htmpl hrecent
      · split
        · exact ih a w archived hrest hdir htmpl hrecent
        · have hfr := Add_frame tl tp windows a w g.Name
          split
          · next a1 w1 heq =>
            rw [heq] at hfr
            simp only at hfr
            have hopts : a1.opts = a.opts := by rw [hfr]
            have hdate : a1.date = a.date := by rw [hfr]
            refine ih a1 w1 archived hrest hdir (by rw [hopts]; exact htmpl) ?_
            unfold fileDateOf at hrecent ⊢
            rw [hopts, hdate]
            exact hrecent
          · next a1 w1 heq =>
            rw [heq] at hfr
            simp only at hfr
            have hopts : a1.opts = a.opts := by rw [hfr]
            have hdate : a1.date = a.date := by rw [hfr]
            refine ih a1 w1 (archived ++ [g.Name]) hrest hdir (by rw [hopts]; exact htmpl) ?_
            unfold fileDateOf at hrecent ⊢
            rw [hopts, hdate]
            exact hrecent

/-- C3, the behaviour of the code: with the delete option, `run` removes a recent
file. The note of 9 April 2024 is one day old at the reference time and the
threshold is three days, so Add skips it and returns nil; `run` appends every
name for which Add returned nil to the archived names, this one included, and the
delete loop removes it, while the archive that was written has none of its
content. -/
theorem run_delete_removes_recent_file :
    isRecent calendar (midnight 2024 4 10) (exampleOpts ["notes", "todo"]).Archive.AfterDays
        (parseFileName calendar false "2024-04-09.txt" "2006-01-02").1 = true
    ∧ exampleDisk (Path.note "2024-04-09.txt")
        = FileState.stored [("notes", ["d"]), ("todo", ["y"])]
    ∧ (addFiles calendar exampleTemplate false exampleListing
          (exampleArchiver ["notes", "todo"]) exampleDisk []).2.2
        = ["2024-04-05.txt", "2024-04-06.txt", "2024-04-09.txt"]
    ∧ (run calendar exampleTemplate false (diskOS exampleListing) (specReadWriter Int)
          (midnight 2024 4 10) (fun _ => ["2024-04"]) (exampleOpts ["notes", "todo"])
          { delete := true, noWrite := false } exampleDisk).1 = none
    ∧ (run calendar exampleTemplate false (diskOS exampleListing) (specReadWriter Int)
          (midnight 2024 4 10) (fun _ => ["2024-04"]) (exampleOpts ["notes", "todo"])
          { delete := true, noWrite := false } exampleDisk).2 (Path.note "2024-04-09.txt")
        = FileState.absent
    ∧ (run calendar exampleTemplate false (diskOS exampleListing) (specReadWriter Int)
          (midnight 2024 4 10) (fun _ => ["2024-04"]) (exampleOpts ["notes", "todo"])
          { delete := true, noWrite := false } exampleDisk).2 (Path.archive "2024-04.txt")
        = FileState.stored [("notes", ["a", "b", "c"]), ("todo", ["x"])] := by
  decide

/-! ### Merging, after the specification -/

theorem mergeItems_nil (d : List String) : mergeItems d [] = d := rfl

theorem mergeItems_cons (d : List String) (x : String) (s : List String) :
    mergeItems d (x :: s) = mergeItems (if x ∈ d then d else d ++ [x]) s := rfl

theorem mergeItems_append (d s1 s2 : List String) :
    mergeItems d (s1 ++ s2) = mergeItems (mergeItems d s1) s2 := by
  simp [mergeItems, List.foldl_append]

theorem mem_mergeItems (x : String) (s : List String) :
    ∀ d : List String, x ∈ mergeItems d s ↔ x ∈ d ∨ x ∈ s := by
  induction s with
  | nil => intro d; simp [mergeItems_nil]
  | cons y s ih =>
    intro d
    rw [mergeItems_cons, ih]
    by_cases hy : y ∈ d
    · simp only [hy, if_true, List.mem_cons]
      constructor
      · rintro (h | h)
        · exact Or.inl h
        · exact Or.inr (Or.inr h)
      · rintro (h | h | h)
        · exact Or.inl h
        · exact Or.inl (h ▸ hy)
        · exact Or.inr h
    · simp only [hy, if_false, List.mem_append, List.mem_singleton, List.mem_cons]
      tauto

theorem mergeItems_nodup (s : List String) :
    ∀ d : List String, d.Nodup → (mergeItems d s).Nodup := by
  induction s with
  | nil => intro d h; exact h
  | cons y s ih =>
    intro d h
    rw [mergeItems_cons]
    apply ih
    by_cases hy : y ∈ d
    · simpa [hy] using h
    · simp only [hy, if_false]
      exact List.Nodup.append h (List.nodup_singleton y) (by simpa using hy)

theorem mergeItems_absorb (s : List String) :
    ∀ d : List String, (∀ x ∈ s, x ∈ d) → mergeItems d s = d := by
  induction s with
  | nil => intro d _; rfl
  | cons y s ih =>
    intro d h
    have hy : y ∈ d := h y (List.mem_cons_self y s)
    rw [mergeItems_cons]
    simp only [hy, if_true]
    exact ih d (fun x hx => h x (List.mem_cons_of_mem y hx))

theorem mergeItems_prefix (s : List String) :
    ∀ d : List String, ∃ r, mergeItems d s = d ++ r ∧ r.Nodup ∧ ∀ x ∈ r, x ∉ d := by
  induction s with
  | nil => intro d; exact ⟨[], by simp [mergeItems_nil]⟩
  | cons y s ih =>
    intro d
    rw [mergeItems_cons]
    by_cases hy : y ∈ d
    · simp only [hy, if_true]
      exact ih d
    · simp only [hy, if_false]
      obtain ⟨r, hr, hnd, hdis⟩ := ih (d ++ [y])
      refine ⟨y :: r, by simp [hr], ?_, ?_⟩
      · refine List.nodup_cons.mpr ⟨?_, hnd⟩
        intro hmem
        exact hdis y hmem (by simp)
      · intro x hx
        rcases List.mem_cons.mp hx with rfl | hx
        · exact hy
        · intro hxd
          exact hdis x hx (by simp [hxd])

theorem mergeItems_fresh (r : List String) :
    ∀ d : List String, r.Nodup → (∀ x ∈ r, x ∉ d) → mergeItems d r = d ++ r := by
  induction r with
  | nil => intro d _ _; simp [mergeItems_nil]
  | cons y r ih =>
    intro d hnd hdis
    have hy : y ∉ d := hdis y (List.mem_cons_self y r)
    rw [mergeItems_cons]
    simp only [hy, if_false]
    rw [ih (d ++ [y]) (List.nodup_cons.mp hnd).2]
    · simp
    · intro x hx
      have hxd := hdis x (List.mem_cons_of_mem y hx)
      have hxy : x ≠ y := fun e => (List.nodup_cons.mp hnd).1 (e ▸ hx)
      simp [hxd, hxy]

theorem mergeItems_idem (d s : List String) :
    mergeItems d (mergeItems d s) = mergeItems d s := by
  obtain ⟨r, hr, hnd, hdis⟩ := mergeItems_prefix s d
  rw [hr, mergeItems_append, mergeItems_absorb d d (fun x hx => hx), mergeItems_fresh r d hnd hdis]

theorem mergeItems_self (d : List String) : mergeItems d d = d :=
  mergeItems_absorb d d (fun _ hx => hx)


theorem lookup_cons_self (n : String) (v : List String) (S : Sections) :
    List.lookup n ((n, v) :: S) = some v := by
  simp [List.lookup]

theorem lookup_cons_ne (n m : String) (v : List String) (S : Sections) (h : n ≠ m) :
    List.lookup n ((m, v) :: S) = List.lookup n S := by
  have hb : (n == m) = false := by simpa using h
  simp [List.lookup, hb]

theorem lookup_of_mem_names (n : String) :
    ∀ S : Sections, n ∈ S.map Prod.fst → ∃ c, S.lookup n = some c := by
  intro S
  induction S with
  | nil => intro h; simp at h
  | cons s S ih =>
    intro h
    obtain ⟨m, v⟩ := s
    by_cases hn : n = m
    · subst hn
      exact ⟨v, lookup_cons_self n v S⟩
    · rw [lookup_cons_ne n m v S hn]
      apply ih
      simpa [hn] using h

theorem mergeSections_cons (n : String) (c : List String) (A E : Sections) :
    mergeSections ((n, c) :: A) E
      = match E.lookup n, mergeSections A E with
        | some srcItems, some merged => some ((n, mergeItems c srcItems) :: merged)
        | _, _ => none := rfl

theorem mergeSections_cons_some (n : String) (c : List String) (A E P : Sections)
    (h : mergeSections ((n, c) :: A) E = some P) :
    ∃ e Q, E.lookup n = some e ∧ mergeSections A E = some Q ∧ P = (n, mergeItems c e) :: Q := by
  rw [mergeSections_cons] at h
  rcases he : E.lookup n with _ | e
  · simp [he] at h
  · rcases hq : mergeSections A E with _ | Q
    · simp [he, hq] at h
    · simp only [he, hq, Option.some.injEq] at h
      exact ⟨e, Q, rfl, rfl, h.symm⟩

theorem mergeSections_names :
    ∀ (A E P : Sections), mergeSections A E = some P → P.map Prod.fst = A.map Prod.fst := by
  intro A
  induction A with
  | nil => intro E P h; simp [mergeSections] at h; simp [← h]
  | cons s A ih =>
    intro E P h
    obtain ⟨n, c⟩ := s
    obtain ⟨e, Q, _, hq, rfl⟩ := mergeSections_cons_some n c A E P h
    simp [ih E Q hq]

theorem mergeSections_skip (n : String) (v : List String) :
    ∀ (A E : Sections), n ∉ A.map Prod.fst →
      mergeSections A ((n, v) :: E) = mergeSections A E := by
  intro A
  induction A with
  | nil => intro E _; rfl
  | cons s A ih =>
    intro E h
    obtain ⟨m, c⟩ := s
    have hm : m ≠ n := fun e => h (by simp [e])
    have hA : n ∉ A.map Prod.fst := fun hmem => h (by simp at hmem ⊢; exact Or.inr hmem)
    rw [mergeSections_cons, mergeSections_cons, lookup_cons_ne m n v E hm, ih E hA]

theorem mergeSections_idem :
    ∀ (A E P : Sections), (A.map Prod.fst).Nodup → mergeSections A E = some P →
      mergeSections A P = some P := by
  intro A
  induction A with
  | nil => intro E P _ h; simp [mergeSections] at h; simp [← h, mergeSections]
  | cons s A ih =>
    intro E P hnd h
    obtain ⟨n, c⟩ := s
    obtain ⟨e, Q, _, hq, rfl⟩ := mergeSections_cons_some n c A E P h
    have hn : n ∉ A.map Prod.fst := (List.nodup_cons.mp hnd).1
    rw [mergeSections_cons, lookup_cons_self, mergeSections_skip n _ A Q hn,
      ih E Q (List.nodup_cons.mp hnd).2 hq]
    simp only [mergeItems_idem]

theorem mergeSections_self :
    ∀ A : Sections, (A.map Prod.fst).Nodup → mergeSections A A = some A := by
  intro A
  induction A with
  | nil => intro _; rfl
  | cons s A ih =>
    intro hnd
    obtain ⟨n, c⟩ := s
    have hn : n ∉ A.map Prod.fst := (List.nodup_cons.mp hnd).1
    rw [mergeSections_cons, lookup_cons_self, mergeSections_skip n _ A A hn,
      ih (List.nodup_cons.mp hnd).2]
    simp only [mergeItems_self]

theorem mergeSections_lookup :
    ∀ (A E P : Sections), mergeSections A E = some P →
      ∀ (n : String) (c e : List String), A.lookup n = some c → E.lookup n = some e →
        P.lookup n = some (mergeItems c e) := by
  intro A
  induction A with
  | nil => intro E P _ n c e hc; simp at hc
  | cons s A ih =>
    intro E P h n c e hc he
    obtain ⟨m, c0⟩ := s
    obtain ⟨e0, Q, he0, hq, rfl⟩ := mergeSections_cons_some m c0 A E P h
    by_cases hn : n = m
    · subst hn
      rw [lookup_cons_self] at hc ⊢
      rw [he] at he0
      simp only [Option.some.injEq] at hc he0
      rw [← hc, he0]
    · rw [lookup_cons_ne n m _ _ hn] at hc ⊢
      exact ih E Q hq n c e hc he

theorem mem_of_lookup (n : String) (c : List String) :
    ∀ S : Sections, S.lookup n = some c → (n, c) ∈ S := by
  intro S
  induction S with
  | nil => intro h; simp at h
  | cons s S ih =>
    intro h
    obtain ⟨m, v⟩ := s
    by_cases hn : n = m
    · subst hn
      rw [lookup_cons_self] at h
      simp only [Option.some.injEq] at h
      simp [h]
    · rw [lookup_cons_ne n m v S hn] at h
      exact List.mem_cons_of_mem _ (ih h)

theorem mergeSections_wellFormed (A E P : Sections) (hA : WellFormed A)
    (h : mergeSections A E = some P) : WellFormed P := by
  refine ⟨by rw [mergeSections_names A E P h]; exact hA.1, ?_⟩
  revert P
  induction A with
  | nil =>
    intro P h
    simp only [mergeSections, Option.some.injEq] at h
    subst h
    intro s hs
    simp at hs
  | cons s A ih =>
    intro P h
    obtain ⟨n, c⟩ := s
    obtain ⟨e, Q, _, hq, rfl⟩ := mergeSections_cons_some n c A E P h
    have hA2 : WellFormed A :=
      ⟨(List.nodup_cons.mp hA.1).2, fun s hs => hA.2 s (List.mem_cons_of_mem _ hs)⟩
    intro s hs
    rcases List.mem_cons.mp hs with rfl | hs
    · exact mergeItems_nodup e c (hA.2 (n, c) (List.mem_cons_self _ _))
    · exact ih hA2 Q hq s hs

/-- After a merge, every item that the source held in a section of the destination
is in that section of the result, and there exactly once. -/
theorem mergeSections_preserves (A E P : Sections) (hA : WellFormed A)
    (h : mergeSections A E = some P) (n : String) (items : List String)
    (hn : n ∈ A.map Prod.fst) (he : E.lookup n = some items) :
    ∃ merged, P.lookup n = some merged ∧ ∀ x ∈ items, merged.count x = 1 := by
  obtain ⟨c, hc⟩ := lookup_of_mem_names n A hn
  refine ⟨mergeItems c items, mergeSections_lookup A E P h n c items hc he, ?_⟩
  intro x hx
  have hnd : (mergeItems c items).Nodup :=
    mergeItems_nodup items c (hA.2 (n, c) (mem_of_lookup n c A hc))
  exact List.count_eq_one_of_mem hnd ((mem_mergeItems x items c).mpr (Or.inr hx))

theorem setSection_names (S : Sections) (n : String) (v : List String) :
    (setSection S n v).map Prod.fst = S.map Prod.fst := by
  induction S with
  | nil => rfl
  | cons s S ih =>
    simp only [setSection, List.map_cons, List.map_map] at ih ⊢
    by_cases h : s.1 = n <;> simp [h, ih]

theorem setSection_wellFormed (S : Sections) (n : String) (v : List String)
    (hS : WellFormed S) (hv : v.Nodup) : WellFormed (setSection S n v) := by
  refine ⟨by rw [setSection_names]; exact hS.1, ?_⟩
  intro s hs
  simp only [setSection, List.mem_map] at hs
  obtain ⟨s0, hs0, rfl⟩ := hs
  by_cases h : s0.1 = n
  · simpa [h] using hv
  · simpa [h] using hS.2 s0 hs0

theorem emptySections_wellFormed (opts : Opts) : WellFormed (emptySections opts) := by
  refine ⟨?_, ?_⟩
  · simp only [emptySections, List.map_map]
    have : (Prod.fst ∘ fun name : String => (name, ([] : List String))) = id := by
      funext x; rfl
    rw [this, List.map_id]
    exact List.nodup_dedup _
  · intro s hs
    simp only [emptySections, List.mem_map] at hs
    obtain ⟨_, _, rfl⟩ := hs
    exact List.nodup_nil

/-! ### The engine over the documents and the storage of the specification -/

theorem specArchiveSections (tl : TimeLib Time F) (ext : String) (t : Document Time)
    (names : List String) :
    ∀ B : Document Time,
      (archiveSections (specTemplate tl ext) t names B).1.date = B.date
      ∧ (archiveSections (specTemplate tl ext) t names B).1.path = B.path
      ∧ (WellFormed B.sections →
          WellFormed (archiveSections (specTemplate tl ext) t names B).1.sections) := by
  induction names with
  | nil => intro B; exact ⟨rfl, rfl, id⟩
  | cons n names ih =>
    intro B
    simp only [archiveSections]
    rcases hd : B.sections.lookup n with _ | dest
    · simp [specTemplate, hd]
    · rcases hs : t.sections.lookup n with _ | src
      · simp [specTemplate, hd, hs]
      · simp only [specTemplate, hd, hs]
        obtain ⟨h1, h2, h3⟩ := ih { B with sections := setSection B.sections n (mergeItems dest src) }
        refine ⟨h1, h2, fun hB => h3 ?_⟩
        exact setSection_wellFormed B.sections n _ hB
          (mergeItems_nodup src dest (hB.2 (n, dest) (mem_of_lookup n dest B.sections hd)))

/-- A new month archive is a bucket as `Add` maintains them. -/
theorem bucketOK_new (tl : TimeLib Time F) (ext : String) (opts : Opts) (d : Time) :
    BucketOK tl ext opts (tl.Format d opts.Archive.MonthTimeFormat)
      ((specTemplate tl ext).NewMonthArchiveTemplate opts d) :=
  ⟨rfl, rfl, emptySections_wellFormed opts⟩

theorem bucketOK_archiveSections (tl : TimeLib Time F) (ext : String) (opts : Opts) (k : String)
    (t B : Document Time) (names : List String) (hB : BucketOK tl ext opts k B) :
    BucketOK tl ext opts k (archiveSections (specTemplate tl ext) t names B).1 := by
  obtain ⟨h1, h2, h3⟩ := specArchiveSections tl ext t names B
  exact ⟨by rw [h1]; exact hB.1, by rw [h2]; exact hB.2.1, h3 hB.2.2⟩

/-- `Add` keeps every bucket of the map as `Add` maintains them. -/
theorem bucketOK_Add (tl : TimeLib Time F) (ext : String) (windows : Bool)
    (a : Archiver Time (Document Time) (Document Time) World) (w : World) (fileName : String)
    (hOK : ∀ k t, a.Months k = some t → BucketOK tl ext a.opts k t) :
    ∀ k t, (Add tl (specTemplate tl ext) windows a w fileName).2.1.Months k = some t →
      BucketOK tl ext a.opts k t := by
  intro k t
  rcases hr : isRecent tl a.date a.opts.Archive.AfterDays (fileDateOf tl windows a fileName)
  · by_cases hread : (readOf tl (specTemplate tl ext) windows a w fileName).2.2 = none
    · rw [(Add_of_read tl _ windows a w fileName hr hread).2]
      simp only
      by_cases hk : k = monthKeyOf tl windows a fileName
      · subst hk
        simp only [Function.update_same, Option.some.injEq]
        rintro rfl
        apply bucketOK_archiveSections
        unfold bucketOf
        rcases hm : a.Months (monthKeyOf tl windows a fileName) with _ | stored
        · exact bucketOK_new tl ext a.opts _
        · exact hOK _ stored hm
      · rw [Function.update_noteq hk]
        exact hOK k t
    · rw [(Add_of_read_error tl _ windows a w fileName hr hread).2]
      exact hOK k t
  · rw [Add_of_recent tl _ windows a w fileName hr]
    exact hOK k t

/-- The loop body of `Write` when no archive file exists: the bucket is written. -/
theorem writeBucket_absent (tl : TimeLib Time F) (ext : String) (opts : Opts)
    (t : Document Time) (w : Disk) (h : w t.path = FileState.absent) :
    writeBucket (specTemplate tl ext) (specReadWriter Time) opts t w
      = (none, t, Function.update w t.path (FileState.stored t.sections)) := by
  simp [writeBucket, specReadWriter, h]

/-- The loop body of `Write` when the archive file exists and is malformed. -/
theorem writeBucket_malformed (tl : TimeLib Time F) (ext : String) (opts : Opts) (k : String)
    (t : Document Time) (w : Disk) (hOK : BucketOK tl ext opts k t)
    (h : w t.path = FileState.malformed) :
    (writeBucket (specTemplate tl ext) (specReadWriter Time) opts t w).1 ≠ none := by
  have hp : ((specTemplate tl ext).NewMonthArchiveTemplate opts
      ((specTemplate tl ext).GetDate t)).path = t.path := by
    simp [specTemplate, hOK.1, hOK.2.1]
  simp only [writeBucket, specReadWriter, h]
  simp only [hp, h]
  simp [Wrapf]

/-- The loop body of `Write` when the archive file exists with sections `E`: the
bucket merged with `E` is written, or the merge fails. -/
theorem writeBucket_stored (tl : TimeLib Time F) (ext : String) (opts : Opts) (k : String)
    (t : Document Time) (w : Disk) (E : Sections) (hOK : BucketOK tl ext opts k t)
    (h : w t.path = FileState.stored E) :
    (∀ P, mergeSections t.sections E = some P →
      writeBucket (specTemplate tl ext) (specReadWriter Time) opts t w
        = (none, { t with sections := P }, Function.update w t.path (FileState.stored P)))
    ∧ (mergeSections t.sections E = none →
      (writeBucket (specTemplate tl ext) (specReadWriter Time) opts t w).1 ≠ none) := by
  have hp : ((specTemplate tl ext).NewMonthArchiveTemplate opts
      ((specTemplate tl ext).GetDate t)).path = t.path := by
    simp [specTemplate, hOK.1, hOK.2.1]
  constructor
  · intro P hP
    simp only [writeBucket, specReadWriter, h]
    simp only [hp, h]
    simp [specTemplate, hP]
  · intro hP
    simp only [writeBucket, specReadWriter, h]
    simp only [hp, h]
    simp [specTemplate, hP, Wrapf]

/-- The four ways the loop body of `Write` can go for a bucket as `Add` maintains
them. -/
theorem writeBucket_cases (tl : TimeLib Time F) (ext : String) (opts : Opts) (k : String)
    (t : Document Time) (w : Disk) (hOK : BucketOK tl ext opts k t) :
    (w t.path = FileState.absent
      ∧ writeBucket (specTemplate tl ext) (specReadWriter Time) opts t w
        = (none, t, Function.update w t.path (FileState.stored t.sections)))
    ∨ (∃ E P, w t.path = FileState.stored E ∧ mergeSections t.sections E = some P
      ∧ writeBucket (specTemplate tl ext) (specReadWriter Time) opts t w
        = (none, { t with sections := P }, Function.update w t.path (FileState.stored P)))
    ∨ (writeBucket (specTemplate tl ext) (specReadWriter Time) opts t w).1 ≠ none := by
  rcases hw : w t.path with _ | _ | E
  · exact Or.inl ⟨rfl, writeBucket_absent tl ext opts t w hw⟩
  · exact Or.inr (Or.inr (writeBucket_malformed tl ext opts k t w hOK hw))
  · rcases hm : mergeSections t.sections E with _ | P
    · exact Or.inr (Or.inr ((writeBucket_stored tl ext opts k t w E hOK hw).2 hm))
    · exact Or.inr (Or.inl ⟨E, P, rfl, hm, (writeBucket_stored tl ext opts k t w E hOK hw).1 P hm⟩)

/-- A key that `Write` does not visit keeps its bucket. -/
theorem Write_months_frame (tp : TemplateLib Time Tmpl MTmpl) (k : String) (order : List String) :
    ∀ (a : Archiver Time Tmpl MTmpl World) (w : World), k ∉ order →
      (Write tp a w order).2.1.Months k = a.Months k := by
  induction order with
  | nil => intro a w _; rfl
  | cons k0 rest ih =>
    intro a w hk
    have hk0 : k ≠ k0 := fun e => hk (e ▸ List.mem_cons_self _ _)
    have hrest : k ∉ rest := fun m => hk (List.mem_cons_of_mem _ m)
    simp only [Write]
    split
    · exact ih a w hrest
    · split
      · simp [Function.update_noteq hk0]
      · rw [ih _ _ hrest]
        simp [Function.update_noteq hk0]

/-- A successful step of the loop of `Write`, for a bucket as `Add` maintains them:
the bucket after the step is still such a bucket, and the storage changed at the
path of the bucket only. -/
theorem writeBucket_ok (tl : TimeLib Time F) (ext : String) (opts : Opts) (k : String)
    (t t1 : Document Time) (w w1 : Disk) (hOK : BucketOK tl ext opts k t)
    (h : writeBucket (specTemplate tl ext) (specReadWriter Time) opts t w = (none, t1, w1)) :
    BucketOK tl ext opts k t1 ∧ ∀ p, p ≠ t.path → w1 p = w p := by
  rcases writeBucket_cases tl ext opts k t w hOK with ⟨_, hwb⟩ | ⟨E, P, _, hm, hwb⟩ | herr
  · rw [hwb] at h
    simp only [Prod.mk.injEq, true_and] at h
    obtain ⟨rfl, rfl⟩ := h
    exact ⟨hOK, fun p hp => Function.update_noteq hp _ _⟩
  · rw [hwb] at h
    simp only [Prod.mk.injEq, true_and] at h
    obtain ⟨rfl, rfl⟩ := h
    exact ⟨⟨hOK.1, hOK.2.1, mergeSections_wellFormed _ E P hOK.2.2 hm⟩,
      fun p hp => Function.update_noteq hp _ _⟩
  · rw [h] at herr
    exact absurd rfl herr

theorem archivePath_injective (ext k1 k2 : String)
    (h : Path.archive (k1 ++ ext) = Path.archive (k2 ++ ext)) : k1 = k2 := by
  simp only [Path.archive.injEq] at h
  have := congrArg String.data h
  simp only [String.data_append] at this
  exact String.ext (List.append_cancel_right this)

/-- A successful `Write` changes the storage at the paths of the visited buckets
only. -/
theorem Write_frame (tl : TimeLib Time F) (ext : String) (p : Path) (order : List String) :
    ∀ (a : Archiver Time (Document Time) (Document Time) Disk) (w : Disk),
      a.rw = specReadWriter Time →
      (∀ k t, a.Months k = some t → BucketOK tl ext a.opts k t) →
      (∀ k ∈ order, p ≠ Path.archive (k ++ ext)) →
      (Write (specTemplate tl ext) a w order).1 = none →
      (Write (specTemplate tl ext) a w order).2.2 p = w p := by
  induction order with
  | nil => intro a w _ _ _ _; rfl
  | cons k0 rest ih =>
    intro a w hrw hOK hp hnone
    have hp0 : p ≠ Path.archive (k0 ++ ext) := hp k0 (List.mem_cons_self _ _)
    have hprest : ∀ k ∈ rest, p ≠ Path.archive (k ++ ext) :=
      fun k hk => hp k (List.mem_cons_of_mem _ hk)
    simp only [Write] at hnone ⊢
    rcases hm : a.Months k0 with _ | t0
    · simp only [hm] at hnone ⊢
      exact ih a w hrw hOK hprest hnone
    · simp only [hm] at hnone ⊢
      rcases hwb : writeBucket (specTemplate tl ext) a.rw a.opts t0 w with ⟨_ | err, t1, w1⟩
      · simp only [hwb] at hnone ⊢
        rw [hrw] at hwb
        obtain ⟨hOK1, hfr⟩ := writeBucket_ok tl ext a.opts k0 t0 t1 w w1 (hOK k0 t0 hm) hwb
        have hOKa1 : ∀ k t, (Function.update a.Months k0 (some t1)) k = some t →
            BucketOK tl ext a.opts k t := by
          intro k t hk
          by_cases hkk : k = k0
          · subst hkk
            simp only [Function.update_same, Option.some.injEq] at hk
            exact hk ▸ hOK1
          · simp only [Function.update_noteq hkk] at hk
            exact hOK k t hk
        rw [ih { a with Months := Function.update a.Months k0 (some t1) } w1 hrw hOKa1 hprest
          hnone]
        exact hfr p (by rw [(hOK k0 t0 hm).2.1]; exact hp0)
      · simp [hwb] at hnone

/-- What a successful `Write` leaves in storage for each visited bucket: the bucket
itself where no archive file existed, the bucket merged with the sections of the
archive file where one existed. -/
theorem Write_stores (tl : TimeLib Time F) (ext : String) (order : List String) :
    ∀ (a : Archiver Time (Document Time) (Document Time) Disk) (w : Disk),
      a.rw = specReadWriter Time →
      (∀ k t, a.Months k = some t → BucketOK tl ext a.opts k t) →
      order.Nodup →
      (Write (specTemplate tl ext) a w order).1 = none →
      ∀ k ∈ order, ∀ t, a.Months k = some t →
        (w t.path = FileState.absent →
          (Write (specTemplate tl ext) a w order).2.2 t.path = FileState.stored t.sections)
        ∧ (∀ E, w t.path = FileState.stored E →
          ∃ P, mergeSections t.sections E = some P
            ∧ (Write (specTemplate tl ext) a w order).2.2 t.path = FileState.stored P) := by
  induction order with
  | nil => intro a w _ _ _ _ k hk; simp at hk
  | cons k0 rest ih =>
    intro a w hrw hOK hnd hnone k hk t ht
    have hk0rest : k0 ∉ rest := (List.nodup_cons.mp hnd).1
    have hndrest : rest.Nodup := (List.nodup_cons.mp hnd).2
    simp only [Write] at hnone ⊢
    rcases hm : a.Months k0 with _ | t0
    · simp only [hm] at hnone ⊢
      have hkk : k ≠ k0 := fun e => by rw [e, hm] at ht; simp at ht
      have hkrest : k ∈ rest := by
        rcases List.mem_cons.mp hk with h | h
        · exact absurd h hkk
        · exact h
      exact ih a w hrw hOK hndrest hnone k hkrest t ht
    · simp only [hm] at hnone ⊢
      rcases hwb : writeBucket (specTemplate tl ext) a.rw a.opts t0 w with ⟨_ | err, t1, w1⟩
      · simp only [hwb] at hnone ⊢
        rw [hrw] at hwb
        obtain ⟨hOK1, hfr⟩ := writeBucket_ok tl ext a.opts k0 t0 t1 w w1 (hOK k0 t0 hm) hwb
        have hOKa1 : ∀ k t, (Function.update a.Months k0 (some t1)) k = some t →
            BucketOK tl ext a.opts k t := by
          intro k t hk
          by_cases hkk : k = k0
          · subst hkk
            simp only [Function.update_same, Option.some.injEq] at hk
            exact hk ▸ hOK1
          · simp only [Function.update_noteq hkk] at hk
            exact hOK k t hk
        by_cases hkk : k = k0
        · subst hkk
          rw [hm] at ht
          simp only [Option.some.injEq] at ht
          subst ht
          have hframe := Write_frame tl ext t0.path rest
            { a with Months := Function.update a.Months k (some t1) } w1 hrw hOKa1
            (by
              intro k' hk' heq
              rw [(hOK k t0 hm).2.1] at heq
              exact hk0rest (archivePath_injective ext k k' heq ▸ hk'))
            hnone
          rw [hframe]
          rcases writeBucket_cases tl ext a.opts k t0 w (hOK k t0 hm) with
            ⟨habs, hwb2⟩ | ⟨E, P, hst, hmg, hwb2⟩ | herr
          · rw [hwb2] at hwb
            simp only [Prod.mk.injEq, true_and] at hwb
            refine ⟨fun _ => by rw [← hwb.2]; simp, fun E hE => ?_⟩
            rw [habs] at hE
            exact absurd hE (by simp)
          · rw [hwb2] at hwb
            simp only [Prod.mk.injEq, true_and] at hwb
            refine ⟨fun habs => ?_, fun E2 hE2 => ?_⟩
            · rw [hst] at habs
              exact absurd habs (by simp)
            · rw [hst] at hE2
              simp only [FileState.stored.injEq] at hE2
              subst hE2
              exact ⟨P, hmg, by rw [← hwb.2]; simp⟩
          · rw [hwb] at herr
            exact absurd rfl herr
        · have hkrest : k ∈ rest := by
            rcases List.mem_cons.mp hk with h | h
            · exact absurd h hkk
            · exact h
          have hpne : t.path ≠ t0.path := by
            rw [(hOK k t ht).2.1, (hOK k0 t0 hm).2.1]
            exact fun heq => hkk (archivePath_injective ext k k0 heq)
          have hsame : w1 t.path = w t.path := hfr t.path hpne
          have := ih { a with Months := Function.update a.Months k0 (some t1) } w1 hrw hOKa1
            hndrest hnone k hkrest t (by simp [Function.update_noteq hkk, ht])
          rw [hsame] at this
          exact this
      · simp [hwb] at hnone

/-! ### One run and a second run -/

/-- The call of Read that `Add` makes on a new archiver, over the storage of the
specification. -/
theorem readOf_fresh (tl : TimeLib Time F) (ext : String) (windows : Bool) (opts : Opts)
    (now : Time) (w : Disk) (fileName : String) :
    readOf tl (specTemplate tl ext) windows (NewArchiver opts (specReadWriter Time) now) w fileName
      = match w (specNote tl ext windows opts fileName []).path with
        | FileState.stored N => (w, specNote tl ext windows opts fileName N, none)
        | FileState.malformed =>
          (w, specNote tl ext windows opts fileName (emptySections opts), some "malformed content")
        | FileState.absent =>
          (w, specNote tl ext windows opts fileName (emptySections opts), some "no such file") := by
  simp only [readOf, NewArchiver, specReadWriter, specTemplate, fileDateOf, specNote]

/-- `Add` of a file that is old enough on a new archiver, when storage holds the
sections `N` for the note: the error is that of the section loop, the map has the
one bucket the loop made, and storage is as it was. -/
theorem Add_fresh (tl : TimeLib Time F) (ext : String) (windows : Bool) (opts : Opts)
    (now : Time) (w : Disk) (fileName : String) (N : Sections)
    (hold : isRecent tl now opts.Archive.AfterDays
      (parseFileName tl windows fileName opts.File.TimeFormat).1 = false)
    (hN : w (specNote tl ext windows opts fileName []).path = FileState.stored N) :
    ((Add tl (specTemplate tl ext) windows (NewArchiver opts (specReadWriter Time) now) w
        fileName).1 = none ↔ (specBucket tl ext windows opts fileName N).2 = none)
    ∧ (Add tl (specTemplate tl ext) windows (NewArchiver opts (specReadWriter Time) now) w
        fileName).2
      = ({ opts := opts, rw := specReadWriter Time, date := now,
           Months := Function.update (fun _ => none)
            (tl.Format (parseFileName tl windows fileName opts.File.TimeFormat).1
              opts.Archive.MonthTimeFormat)
            (some (specBucket tl ext windows opts fileName N).1) }, w) := by
  have hr := readOf_fresh tl ext windows opts now w fileName
  rw [hN] at hr
  have hread : (readOf tl (specTemplate tl ext) windows
      (NewArchiver opts (specReadWriter Time) now) w fileName).2.2 = none := by rw [hr]
  obtain ⟨hiff, hres⟩ := Add_of_read tl (specTemplate tl ext) windows
    (NewArchiver opts (specReadWriter Time) now) w fileName hold hread
  have hm : mergeOf tl (specTemplate tl ext) windows
      (NewArchiver opts (specReadWriter Time) now) w fileName
      = specBucket tl ext windows opts fileName N := by
    unfold mergeOf
    rw [hr]
    rfl
  rw [hm] at hiff hres
  refine ⟨hiff, ?_⟩
  rw [hres, hr]
  rfl

/-- `Add` of a file that is old enough on a new archiver fails when storage has
no well-formed note for it. -/
theorem Add_fresh_unreadable (tl : TimeLib Time F) (ext : String) (windows : Bool) (opts : Opts)
    (now : Time) (w : Disk) (fileName : String)
    (hold : isRecent tl now opts.Archive.AfterDays
      (parseFileName tl windows fileName opts.File.TimeFormat).1 = false)
    (hN : ∀ N, w (specNote tl ext windows opts fileName []).path ≠ FileState.stored N) :
    (Add tl (specTemplate tl ext) windows (NewArchiver opts (specReadWriter Time) now) w
        fileName).1 ≠ none := by
  have hr := readOf_fresh tl ext windows opts now w fileName
  have hread : (readOf tl (specTemplate tl ext) windows
      (NewArchiver opts (specReadWriter Time) now) w fileName).2.2 ≠ none := by
    rw [hr]
    rcases hw : w (specNote tl ext windows opts fileName []).path with _ | _ | N
    · simp
    · simp
    · exact absurd hw (hN N)
  exact (Add_of_read_error tl (specTemplate tl ext) windows
    (NewArchiver opts (specReadWriter Time) now) w fileName hold hread).1

theorem specBucket_ok (tl : TimeLib Time F) (ext : String) (windows : Bool) (opts : Opts)
    (fileName : String) (N : Sections) :
    BucketOK tl ext opts
      (tl.Format (parseFileName tl windows fileName opts.File.TimeFormat).1
        opts.Archive.MonthTimeFormat)
      (specBucket tl ext windows opts fileName N).1 :=
  bucketOK_archiveSections tl ext opts _ _ _ _ (bucketOK_new tl ext opts _)

/-- A visiting order of a map with a single key is that key. -/
theorem rangeOrder_single {β : Type} (k : String) (b : β) (order : List String)
    (h : RangeOrder (Function.update (fun _ => (none : Option β)) k (some b)) order) :
    order = [k] := by
  obtain ⟨hnd, hmem⟩ := h
  have hall : ∀ x, x ∈ order ↔ x = k := by
    intro x
    rw [hmem]
    by_cases hx : x = k
    · subst hx
      simp
    · simp [Function.update_noteq hx, hx]
  match order, hnd, hall with
  | [], _, hall => exact absurd ((hall k).mpr rfl) (by simp)
  | [x], _, hall =>
    have := (hall x).mp (by simp)
    rw [this]
  | x :: y :: rest, hnd, hall =>
    have hx := (hall x).mp (by simp)
    have hy := (hall y).mp (by simp)
    have : x ≠ y := by
      intro e
      have := (List.nodup_cons.mp hnd).1
      exact this (by simp [e])
    exact absurd (hx.trans hy.symm) this

/-- `Write` visiting a single key: the error and the storage are those of the loop
body for the bucket of the key. -/
theorem Write_single (tp : TemplateLib Time Tmpl MTmpl) (a : Archiver Time Tmpl MTmpl World)
    (w : World) (k : String) (t : MTmpl) (h : a.Months k = some t) :
    (Write tp a w [k]).1 = (writeBucket tp a.rw a.opts t w).1
    ∧ (Write tp a w [k]).2.2 = (writeBucket tp a.rw a.opts t w).2.2 := by
  simp only [Write, h]
  rcases writeBucket tp a.rw a.opts t w with ⟨_ | err, t1, w1⟩ <;> simp [Write]

/-- What a successful run on one file that is old enough leaves behind: storage
differs from the storage before the run at the archive path of the month only,
where it holds well-formed sections `S` that absorb the bucket of the file:
merging `S` into the bucket gives `S` again. -/
theorem archiveOnce_first (tl : TimeLib Time F) (ext : String) (windows : Bool) (opts : Opts)
    (now : Time) (w : Disk) (fileName : String) (order : List String)
    (hold : isRecent tl now opts.Archive.AfterDays
      (parseFileName tl windows fileName opts.File.TimeFormat).1 = false)
    (hrange : RangeOrder (Add tl (specTemplate tl ext) windows
      (NewArchiver opts (specReadWriter Time) now) w fileName).2.1.Months order)
    (hadd : (archiveOnce tl ext windows opts now w fileName order).1 = none)
    (hwrite : (archiveOnce tl ext windows opts now w fileName order).2.1 = none) :
    ∃ N S, w (specNote tl ext windows opts fileName []).path = FileState.stored N
      ∧ (specBucket tl ext windows opts fileName N).2 = none
      ∧ (archiveOnce tl ext windows opts now w fileName order).2.2
        = Function.update w
            (Path.archive (tl.Format (parseFileName tl windows fileName opts.File.TimeFormat).1
              opts.Archive.MonthTimeFormat ++ ext)) (FileState.stored S)
      ∧ mergeSections (specBucket tl ext windows opts fileName N).1.sections S = some S
      ∧ WellFormed S := by
  by_cases hN : ∃ N, w (specNote tl ext windows opts fileName []).path = FileState.stored N
  · obtain ⟨N, hN⟩ := hN
    obtain ⟨hiff, hres⟩ := Add_fresh tl ext windows opts now w fileName N hold hN
    have hB := specBucket_ok tl ext windows opts fileName N
    simp only [archiveOnce] at hadd hwrite ⊢
    have hmerge := hiff.mp hadd
    rw [hres] at hrange hwrite ⊢
    simp only at hrange hwrite ⊢
    have horder := rangeOrder_single _ _ order hrange
    subst horder
    obtain ⟨hw1, hw2⟩ := Write_single (specTemplate tl ext)
      { opts := opts, rw := specReadWriter Time, date := now,
        Months := Function.update (fun _ => none)
          (tl.Format (parseFileName tl windows fileName opts.File.TimeFormat).1
            opts.Archive.MonthTimeFormat)
          (some (specBucket tl ext windows opts fileName N).1) } w
      (tl.Format (parseFileName tl windows fileName opts.File.TimeFormat).1
        opts.Archive.MonthTimeFormat)
      (specBucket tl ext windows opts fileName N).1
      (by simp only [Function.update_same])
    rw [hw1] at hwrite
    rw [hw2]
    refine ⟨N, ?_⟩
    rcases writeBucket_cases tl ext opts _ (specBucket tl ext windows opts fileName N).1 w hB with
      ⟨_, hwb⟩ | ⟨E, P, _, hm, hwb⟩ | herr
    · refine ⟨_, hN, hmerge, ?_, mergeSections_self _ hB.2.2.1, hB.2.2⟩
      simp only at hwb ⊢
      rw [hwb, hB.2.1]
    · refine ⟨P, hN, hmerge, ?_, mergeSections_idem _ E P hB.2.2.1 hm,
        mergeSections_wellFormed _ E P hB.2.2 hm⟩
      simp only at hwb ⊢
      rw [hwb, hB.2.1]
    · exact absurd hwrite herr
  · have := Add_fresh_unreadable tl ext windows opts now w fileName hold
      (fun N h => hN ⟨N, h⟩)
    exact absurd hadd this

/-- A run on a file that is old enough, over storage that already holds at the
archive path sections absorbing the bucket of the file, succeeds and leaves
storage as it is. -/
theorem archiveOnce_again (tl : TimeLib Time F) (ext : String) (windows : Bool) (opts : Opts)
    (now : Time) (w : Disk) (fileName : String) (order : List String) (N S : Sections)
    (hold : isRecent tl now opts.Archive.AfterDays
      (parseFileName tl windows fileName opts.File.TimeFormat).1 = false)
    (hrange : RangeOrder (Add tl (specTemplate tl ext) windows
      (NewArchiver opts (specReadWriter Time) now) w fileName).2.1.Months order)
    (hN : w (specNote tl ext windows opts fileName []).path = FileState.stored N)
    (hmerge : (specBucket tl ext windows opts fileName N).2 = none)
    (hS : w (Path.archive (tl.Format (parseFileName tl windows fileName opts.File.TimeFormat).1
      opts.Archive.MonthTimeFormat ++ ext)) = FileState.stored S)
    (habsorb : mergeSections (specBucket tl ext windows opts fileName N).1.sections S = some S) :
    archiveOnce tl ext windows opts now w fileName order = (none, none, w) := by
  obtain ⟨hiff, hres⟩ := Add_fresh tl ext windows opts now w fileName N hold hN
  have hB := specBucket_ok tl ext windows opts fileName N
  have hadd := hiff.mpr hmerge
  simp only [archiveOnce]
  rw [hres] at hrange ⊢
  simp only at hrange ⊢
  have horder := rangeOrder_single _ _ order hrange
  subst horder
  obtain ⟨hw1, hw2⟩ := Write_single (specTemplate tl ext)
    { opts := opts, rw := specReadWriter Time, date := now,
      Months := Function.update (fun _ => none)
        (tl.Format (parseFileName tl windows fileName opts.File.TimeFormat).1
          opts.Archive.MonthTimeFormat)
        (some (specBucket tl ext windows opts fileName N).1) } w
    (tl.Format (parseFileName tl windows fileName opts.File.TimeFormat).1
      opts.Archive.MonthTimeFormat)
    (specBucket tl ext windows opts fileName N).1
      (by simp only [Function.update_same])
  rw [hadd, hw1, hw2]
  have hS2 : w (specBucket tl ext windows opts fileName N).1.path = FileState.stored S := by
    rw [hB.2.1]
    exact hS
  have hwb := (writeBucket_stored tl ext opts _ (specBucket tl ext windows opts fileName N).1 w S
    hB hS2).1 S habsorb
  simp only at hwb ⊢
  rw [hwb]
  simp only [Prod.mk.injEq, true_and]
  rw [← hS2]
  exact Function.update_eq_self _ _

/-- C1: archiving is idempotent. Take a note file that is old enough at both runs.
Let a first run (a new archiver, Add of the file, Write) succeed, and let a second
run (a new archiver over the storage the first run left, Add of the same file,
Write) follow. Then the second run succeeds too and leaves storage exactly as
the first run left it: the monthly archive document it persists has, in every
section, the content persisted by the first run; and in that document no section
name and no item of a section occurs twice. -/
theorem archive_twice_is_idempotent (tl : TimeLib Time F) (ext : String) (windows : Bool)
    (opts : Opts) (now1 now2 : Time) (w : Disk) (fileName : String) (order1 order2 : List String)
    (hold1 : isRecent tl now1 opts.Archive.AfterDays
      (parseFileName tl windows fileName opts.File.TimeFormat).1 = false)
    (hold2 : isRecent tl now2 opts.Archive.AfterDays
      (parseFileName tl windows fileName opts.File.TimeFormat).1 = false)
    (hrange1 : RangeOrder (Add tl (specTemplate tl ext) windows
      (NewArchiver opts (specReadWriter Time) now1) w fileName).2.1.Months order1)
    (hadd1 : (archiveOnce tl ext windows opts now1 w fileName order1).1 = none)
    (hwrite1 : (archiveOnce tl ext windows opts now1 w fileName order1).2.1 = none)
    (hrange2 : RangeOrder (Add tl (specTemplate tl ext) windows
      (NewArchiver opts (specReadWriter Time) now2)
      (archiveOnce tl ext windows opts now1 w fileName order1).2.2 fileName).2.1.Months order2) :
    archiveOnce tl ext windows opts now2
        (archiveOnce tl ext windows opts now1 w fileName order1).2.2 fileName order2
      = (none, none, (archiveOnce tl ext windows opts now1 w fileName order1).2.2)
    ∧ ∃ S, (archiveOnce tl ext windows opts now1 w fileName order1).2.2
          (Path.archive (tl.Format (parseFileName tl windows fileName opts.File.TimeFormat).1
            opts.Archive.MonthTimeFormat ++ ext)) = FileState.stored S
        ∧ WellFormed S := by
  obtain ⟨N, S, hN, hmerge, hw1, habsorb, hwf⟩ :=
    archiveOnce_first tl ext windows opts now1 w fileName order1 hold1 hrange1 hadd1 hwrite1
  have hS : (archiveOnce tl ext windows opts now1 w fileName order1).2.2
      (Path.archive (tl.Format (parseFileName tl windows fileName opts.File.TimeFormat).1
        opts.Archive.MonthTimeFormat ++ ext)) = FileState.stored S := by
    rw [hw1]
    exact Function.update_same _ _ _
  have hN2 : (archiveOnce tl ext windows opts now1 w fileName order1).2.2
      (specNote tl ext windows opts fileName []).path = FileState.stored N := by
    rw [hw1, Function.update_noteq (by simp [specNote])]
    exact hN
  exact ⟨archiveOnce_again tl ext windows opts now2 _ fileName order2 N S hold2 hrange2 hN2
    hmerge hS habsorb, S, hS, hwf⟩

theorem rangeOrder_update_single {β : Type} (k : String) (b : β) :
    RangeOrder (Function.update (fun _ => (none : Option β)) k (some b)) [k] := by
  refine ⟨List.nodup_singleton k, fun x => ?_⟩
  by_cases hx : x = k
  · subst hx
    simp
  · simp [Function.update_noteq hx, hx]

theorem archive_twice_is_idempotent_witness :
    (isRecent calendar (midnight 2024 4 10) (exampleOpts ["notes", "todo"]).Archive.AfterDays
        (parseFileName calendar false "2024-04-05.txt"
          (exampleOpts ["notes", "todo"]).File.TimeFormat).1 = false
      ∧ isRecent calendar (midnight 2024 4 11) (exampleOpts ["notes", "todo"]).Archive.AfterDays
        (parseFileName calendar false "2024-04-05.txt"
          (exampleOpts ["notes", "todo"]).File.TimeFormat).1 = false
      ∧ (archiveOnce calendar ".txt" false (exampleOpts ["notes", "todo"]) (midnight 2024 4 10)
          archivedDisk "2024-04-05.txt" ["2024-04"]).1 = none
      ∧ (archiveOnce calendar ".txt" false (exampleOpts ["notes", "todo"]) (midnight 2024 4 10)
          archivedDisk "2024-04-05.txt" ["2024-04"]).2.1 = none
      ∧ (archiveOnce calendar ".txt" false (exampleOpts ["notes", "todo"]) (midnight 2024 4 10)
          archivedDisk "2024-04-05.txt" ["2024-04"]).2.2 (Path.archive "2024-04.txt")
        = FileState.stored [("notes", ["a", "b", "old"]), ("todo", ["x", "t"])])
    ∧ archiveOnce calendar ".txt" false (exampleOpts ["notes", "todo"]) (midnight 2024 4 11)
        (archiveOnce calendar ".txt" false (exampleOpts ["notes", "todo"]) (midnight 2024 4 10)
          archivedDisk "2024-04-05.txt" ["2024-04"]).2.2 "2024-04-05.txt" ["2024-04"]
      = (none, none,
          (archiveOnce calendar ".txt" false (exampleOpts ["notes", "todo"]) (midnight 2024 4 10)
            archivedDisk "2024-04-05.txt" ["2024-04"]).2.2) :=
  ⟨⟨by decide, by decide, by decide, by decide, by decide⟩,
    (archive_twice_is_idempotent calendar ".txt" false (exampleOpts ["notes", "todo"])
      (midnight 2024 4 10) (midnight 2024 4 11) archivedDisk "2024-04-05.txt"
      ["2024-04"] ["2024-04"] (by decide) (by decide)
      (by
        rw [(Add_fresh calendar ".txt" false (exampleOpts ["notes", "todo"]) (midnight 2024 4 10)
          archivedDisk "2024-04-05.txt" [("notes", ["a", "b"]), ("todo", ["x"])]
          (by decide) (by decide)).2]
        exact rangeOrder_update_single _ _)
      (by decide) (by decide)
      (by
        rw [(Add_fresh calendar ".txt" false (exampleOpts ["notes", "todo"]) (midnight 2024 4 11)
          _ "2024-04-05.txt" [("notes", ["a", "b"]), ("todo", ["x"])]
          (by decide) (by decide)).2]
        exact rangeOrder_update_single _ _)).1⟩

theorem specArchiveSections_names (tl : TimeLib Time F) (ext : String) (t : Document Time)
    (names : List String) :
    ∀ B : Document Time,
      (archiveSections (specTemplate tl ext) t names B).1.sections.map Prod.fst
        = B.sections.map Prod.fst := by
  induction names with
  | nil => intro B; rfl
  | cons n names ih =>
    intro B
    simp only [archiveSections]
    rcases hd : B.sections.lookup n with _ | dest
    · simp [specTemplate, hd]
    · rcases hs : t.sections.lookup n with _ | src
      · simp [specTemplate, hd, hs]
      · simp only [specTemplate, hd, hs]
        have h := ih { B with sections := setSection B.sections n (mergeItems dest src) }
        exact h.trans (setSection_names B.sections n _)

/-- `Add` keeps the section names of every bucket of the map: the configured
ones, each once. -/
theorem bucketNamed_Add (tl : TimeLib Time F) (ext : String) (windows : Bool)
    (a : Archiver Time (Document Time) (Document Time) World) (w : World) (fileName : String)
    (hN : ∀ k t, a.Months k = some t → BucketNamed a.opts t) :
    ∀ k t, (Add tl (specTemplate tl ext) windows a w fileName).2.1.Months k = some t →
      BucketNamed a.opts t := by
  intro k t
  rcases hr : isRecent tl a.date a.opts.Archive.AfterDays (fileDateOf tl windows a fileName)
  · by_cases hread : (readOf tl (specTemplate tl ext) windows a w fileName).2.2 = none
    · rw [(Add_of_read tl _ windows a w fileName hr hread).2]
      simp only
      by_cases hk : k = monthKeyOf tl windows a fileName
      · subst hk
        simp only [Function.update_same, Option.some.injEq]
        rintro rfl
        unfold BucketNamed mergeOf
        rw [specArchiveSections_names]
        unfold bucketOf
        rcases hm : a.Months (monthKeyOf tl windows a fileName) with _ | stored
        · simp [specTemplate, emptySections, Function.comp_def]
        · exact hN _ stored hm
      · rw [Function.update_noteq hk]
        exact hN k t
    · rw [(Add_of_read_error tl _ windows a w fileName hr hread).2]
      exact hN k t
  · rw [Add_of_recent tl _ windows a w fileName hr]
    exact hN k t

theorem lookup_of_mem_nodup (n : String) (c : List String) :
    ∀ S : Sections, (S.map Prod.fst).Nodup → (n, c) ∈ S → S.lookup n = some c := by
  intro S
  induction S with
  | nil => intro _ h; simp at h
  | cons s S ih =>
    intro hnd h
    obtain ⟨m, v⟩ := s
    have hm : m ∉ S.map Prod.fst := (List.nodup_cons.mp hnd).1
    rcases List.mem_cons.mp h with heq | hmem
    · simp only [Prod.mk.injEq] at heq
      obtain ⟨rfl, rfl⟩ := heq
      exact lookup_cons_self n c S
    · have hne : n ≠ m := by
        intro e
        apply hm
        rw [← e]
        exact List.mem_map.mpr ⟨(n, c), hmem, rfl⟩
      rw [lookup_cons_ne n m v S hne]
      exact ih (List.nodup_cons.mp hnd).2 hmem

/-- Merging sections `E` into a bucket that holds the configured sections: the
result holds the configured sections again; every item that `E` holds under a
configured name is in the section of that name of the result exactly once; and
when `E` names configured sections only, each once, all content of `E` is kept. -/
theorem merge_keeps_configured (names : List String) (A E P : Sections) (hA : WellFormed A)
    (hnames : A.map Prod.fst = names.dedup) (hm : mergeSections A E = some P) :
    P.map Prod.fst = names.dedup
    ∧ Preserved names E P
    ∧ ((E.map Prod.fst).Nodup → (∀ s ∈ E, s.1 ∈ names) → KeepsAll E P) := by
  have hpres : Preserved names E P := by
    intro n items hn hitems
    exact mergeSections_preserves A E P hA hm n items
      (by rw [hnames]; exact List.mem_dedup.mpr hn) hitems
  refine ⟨by rw [mergeSections_names A E P hm, hnames], hpres, ?_⟩
  intro hnd hsub s hs x hx
  obtain ⟨merged, hl, hcount⟩ := hpres s.1 s.2 (hsub s hs) (lookup_of_mem_nodup s.1 s.2 E hnd hs)
  exact ⟨merged, mem_of_lookup s.1 merged P hl, hcount x hx⟩

/-- C2, the statement as first given fails. The archiver of the examples has added
the note of 5 April 2024; the archive file of April exists and holds, next to the
configured sections `notes` and `todo`, a section `ideas` with the item
`precious`. Exists is true, Read and Merge succeed and Write returns nil, yet the
document written has the configured sections only: the content of `ideas` that
was in the existing archive is not in it. -/
theorem Write_drops_unconfigured_section :
    extraArchiver.opts.Section.Names = ["notes", "todo"]
    ∧ (extraArchiver.Months "2024-04").map (fun t => (specReadWriter Int).Exists extraDisk t)
        = some true
    ∧ (extraArchiver.Months "2024-04").map (fun t =>
          ((specReadWriter Int).ReadArchive extraDisk
            ((specTemplate calendar ".txt").NewMonthArchiveTemplate extraArchiver.opts
              ((specTemplate calendar ".txt").GetDate t))).2.2) = some none
    ∧ (extraArchiver.Months "2024-04").map (fun t =>
          ((specTemplate calendar ".txt").Merge t
            ((specReadWriter Int).ReadArchive extraDisk
              ((specTemplate calendar ".txt").NewMonthArchiveTemplate extraArchiver.opts
                ((specTemplate calendar ".txt").GetDate t))).2.1).2) = some none
    ∧ (Write (specTemplate calendar ".txt") extraArchiver extraDisk ["2024-04"]).1 = none
    ∧ extraDisk (Path.archive "2024-04.txt")
        = FileState.stored [("notes", ["a", "old"]), ("todo", ["t"]), ("ideas", ["precious"])]
    ∧ (Write (specTemplate calendar ".txt") extraArchiver extraDisk ["2024-04"]).2.2
          (Path.archive "2024-04.txt")
        = FileState.stored [("notes", ["a", "b", "old"]), ("todo", ["x", "t"])]
    ∧ ¬ KeepsAll [("notes", ["a", "old"]), ("todo", ["t"]), ("ideas", ["precious"])]
          [("notes", ["a", "b", "old"]), ("todo", ["x", "t"])] := by
  refine ⟨by decide, by decide, by decide, by decide, by decide, by decide, by decide, ?_⟩
  intro h
  obtain ⟨merged, hmem, _⟩ := h ("ideas", ["precious"]) (by decide) "precious" (by decide)
  simp at hmem

/-- C2, amended: Write preserves the previously persisted content of the
configured sections. Take an archiver over the storage of the specification
whose buckets are as `NewArchiver` and `Add` make them, holding the configured
sections. (1) For every bucket it holds and whatever the storage is when its turn
comes: if the archive file exists, Read of it succeeds with document `existing`
and Merge succeeds with result `merged`, then the loop body hands `merged`, the
bucket merged with the loaded document, to Overwrite, which stores its sections
at the path of the bucket; `merged` has exactly the configured sections; every
item that `existing` holds under a configured section name occurs in the section
of that name of `merged` exactly once; and when the sections of `existing` are
configured ones, each name once, every piece of its content is kept. (2) When
Write as a whole returns nil, the same holds of what storage has afterwards at
the path of every bucket whose archive file existed. A section of the existing
file under a name that is not configured is not carried over. -/
theorem Write_preserves_configured_sections (tl : TimeLib Time F) (ext : String)
    (a : Archiver Time (Document Time) (Document Time) Disk) (w : Disk) (order : List String)
    (hrw : a.rw = specReadWriter Time)
    (hOK : ∀ k t, a.Months k = some t → BucketOK tl ext a.opts k t)
    (hNamed : ∀ k t, a.Months k = some t → BucketNamed a.opts t) :
    (∀ (k : String) (t : Document Time) (v : Disk) (existing merged : Document Time),
        a.Months k = some t →
        a.rw.Exists v t = true →
        (a.rw.ReadArchive v ((specTemplate tl ext).NewMonthArchiveTemplate a.opts
          ((specTemplate tl ext).GetDate t))).2 = (existing, none) →
        (specTemplate tl ext).Merge t existing = (merged, none) →
        writeBucket (specTemplate tl ext) a.rw a.opts t v
            = (none, merged, (a.rw.Overwrite v merged).1)
          ∧ (a.rw.Overwrite v merged).1 t.path = FileState.stored merged.sections
          ∧ merged.sections.map Prod.fst = a.opts.Section.Names.dedup
          ∧ Preserved a.opts.Section.Names existing.sections merged.sections
          ∧ ((existing.sections.map Prod.fst).Nodup →
              (∀ s ∈ existing.sections, s.1 ∈ a.opts.Section.Names) →
              KeepsAll existing.sections merged.sections))
    ∧ (RangeOrder a.Months order → (Write (specTemplate tl ext) a w order).1 = none →
        ∀ (k : String) (t : Document Time) (E : Sections),
          a.Months k = some t → w t.path = FileState.stored E →
          ∃ P, mergeSections t.sections E = some P
            ∧ (Write (specTemplate tl ext) a w order).2.2 t.path = FileState.stored P
            ∧ P.map Prod.fst = a.opts.Section.Names.dedup
            ∧ Preserved a.opts.Section.Names E P
            ∧ ((E.map Prod.fst).Nodup → (∀ s ∈ E, s.1 ∈ a.opts.Section.Names) →
                KeepsAll E P)) := by
  constructor
  · intro k t v existing merged hk _ hread hmerge
    have hB := hOK k t hk
    have hp : ((specTemplate tl ext).NewMonthArchiveTemplate a.opts
        ((specTemplate tl ext).GetDate t)).path = t.path := by
      simp [specTemplate, hB.1, hB.2.1]
    rw [hrw] at hread ⊢
    rcases hv : v t.path with _ | _ | E
    · simp [specReadWriter, hp, hv] at hread
    · simp [specReadWriter, hp, hv] at hread
    · simp only [specReadWriter, hp, hv, Prod.mk.injEq, and_true] at hread
      rcases hm : mergeSections t.sections E with _ | P
      · subst hread
        simp [specTemplate, hm] at hmerge
      · subst hread
        simp only [specTemplate, hm, Prod.mk.injEq, and_true] at hmerge
        subst hmerge
        refine ⟨?_, ?_, ?_⟩
        · rw [(writeBucket_stored tl ext a.opts k t v E hB hv).1 P hm]
          rfl
        · simp [specReadWriter]
        · exact merge_keeps_configured a.opts.Section.Names t.sections E P hB.2.2
            (hNamed k t hk) hm
  · intro hrange hnone k t E hk hE
    have hmem : k ∈ order := (hrange.2 k).mpr (by simp [hk])
    obtain ⟨P, hm, hst⟩ :=
      (Write_stores tl ext order a w hrw hOK hrange.1 hnone k hmem t hk).2 E hE
    exact ⟨P, hm, hst, merge_keeps_configured a.opts.Section.Names t.sections E P
      (hOK k t hk).2.2 (hNamed k t hk) hm⟩

theorem Write_preserves_configured_sections_witness :
    (addedArchiver.rw = specReadWriter Int
      ∧ (∀ k t, addedArchiver.Months k = some t →
          BucketOK calendar ".txt" addedArchiver.opts k t)
      ∧ (∀ k t, addedArchiver.Months k = some t → BucketNamed addedArchiver.opts t)
      ∧ RangeOrder addedArchiver.Months ["2024-04"]
      ∧ (Write (specTemplate calendar ".txt") addedArchiver archivedDisk ["2024-04"]).1 = none
      ∧ (addedArchiver.Months "2024-04").map (fun d => d.sections)
        = some [("notes", ["a", "b"]), ("todo", ["x"])]
      ∧ archivedDisk (Path.archive "2024-04.txt")
        = FileState.stored [("notes", ["a", "old"]), ("todo", ["t"])]
      ∧ (Write (specTemplate calendar ".txt") addedArchiver archivedDisk ["2024-04"]).2.2
          (Path.archive "2024-04.txt")
        = FileState.stored [("notes", ["a", "b", "old"]), ("todo", ["x", "t"])])
    ∧ (∀ (k : String) (t : Document Int) (E : Sections),
        addedArchiver.Months k = some t → archivedDisk t.path = FileState.stored E →
        ∃ P, mergeSections t.sections E = some P
          ∧ (Write (specTemplate calendar ".txt") addedArchiver archivedDisk ["2024-04"]).2.2
              t.path = FileState.stored P
          ∧ P.map Prod.fst = addedArchiver.opts.Section.Names.dedup
          ∧ Preserved addedArchiver.opts.Section.Names E P
          ∧ ((E.map Prod.fst).Nodup → (∀ s ∈ E, s.1 ∈ addedArchiver.opts.Section.Names) →
              KeepsAll E P)) :=
  have hrange : RangeOrder addedArchiver.Months ["2024-04"] := by
    unfold addedArchiver exampleArchiver exampleTemplate
    rw [(Add_fresh calendar ".txt" false (exampleOpts ["notes", "todo"]) (midnight 2024 4 10)
      archivedDisk "2024-04-05.txt" [("notes", ["a", "b"]), ("todo", ["x"])]
      (by decide) (by decide)).2]
    exact rangeOrder_update_single _ _
  have hOK : ∀ k t, addedArchiver.Months k = some t →
      BucketOK calendar ".txt" addedArchiver.opts k t :=
    bucketOK_Add calendar ".txt" false (exampleArchiver ["notes", "todo"]) archivedDisk
      "2024-04-05.txt" (fun k t h => by simp [exampleArchiver, NewArchiver] at h)
  have hNamed : ∀ k t, addedArchiver.Months k = some t → BucketNamed addedArchiver.opts t :=
    bucketNamed_Add calendar ".txt" false (exampleArchiver ["notes", "todo"]) archivedDisk
      "2024-04-05.txt" (fun k t h => by simp [exampleArchiver, NewArchiver] at h)
  ⟨⟨rfl, hOK, hNamed, hrange, by decide, by decide, by decide, by decide⟩,
    (Write_preserves_configured_sections calendar ".txt" addedArchiver archivedDisk ["2024-04"]
      rfl hOK hNamed).2 hrange (by decide)⟩

end Properties

end Textnote
